import Mathlib

/-!
# Verification of the `af3_report` scripts

Shallow embedding of the four scripts of the repository
(`create_report.py`, `plot_iptm_ptm_models.py`, `plot_summary.py`,
`plot_pae_plddt_contact.py`) together with proofs about the embedded
definitions.  Python strings are modelled as `String`/`List Char`,
Python lists as `List`, integer arithmetic as `Nat`/`Int`, fallible code
as `Except`, and filesystem effects as explicit traces of operations.
-/

namespace AF3

/-! ## `create_report.generate_chain_labels` (base-26 chain labels)

```python
def generate_chain_labels(start_index, count):
    labels = []
    alphabet = string.ascii_uppercase
    for i in range(count):
        label = ''
        n = start_index + i
        while n >= 0:
            label = alphabet[n % 26] + label
            n = n // 26 - 1
        labels.append(label)
    return labels
```

The `while` loop terminates because after one pass `n` becomes
`n // 26 - 1`, which is negative exactly when `n < 26`.  We embed the
loop with an explicit fuel argument (the iteration count is at most
`n`, because `n // 26 - 1 < n` for `n ≥ 26`) and prove the loop's
defining equation `labelChars_eq` below. -/

/-- `string.ascii_uppercase`. -/
def asciiUppercase : String := "ABCDEFGHIJKLMNOPQRSTUVWXYZ"

/-- `alphabet[r]` for `r = n % 26` (always in range in the source). -/
def upper (r : Nat) : Char := asciiUppercase.data.getD r 'A'

/-- The `while n >= 0` loop of `generate_chain_labels`, prepending one
letter per iteration to the accumulator `label`.  `fuel` bounds the
number of iterations; `labelCharsAux_fuel_irrel` shows the result does
not depend on it as long as it is large enough. -/
def labelCharsAux : Nat → Nat → List Char → List Char
  | 0, n, label => upper (n % 26) :: label
  | fuel + 1, n, label =>
    if n < 26 then upper (n % 26) :: label
    else labelCharsAux fuel (n / 26 - 1) (upper (n % 26) :: label)

/-- The characters of the label built for the number `n`. -/
def labelChars (n : Nat) : List Char := labelCharsAux n n []

/-- The label (`label` variable of the source) built for the number `n`. -/
def labelOf (n : Nat) : String := String.mk (labelChars n)

/-- `generate_chain_labels(start_index, count)`. -/
def generate_chain_labels (startIndex count : Nat) : List String :=
  (List.range count).map (fun i => labelOf (startIndex + i))

/-- The positional value of a bijective base-26 numeral over `A`..`Z`:
each letter contributes `letter index + 1`, most significant first.
This is the standard meaning of Excel-column-style names (`A` = 1,
`Z` = 26, `AA` = 27, ...); it is the specification-side definition used
to state that `labelOf n` is the bijective base-26 name of `n`. -/
def decodeChars (l : List Char) : Nat :=
  l.foldl (fun a c => a * 26 + (c.toNat - 65 + 1)) 0

/-- `decodeChars` on a `String`. -/
def decodeLabel (s : String) : Nat := decodeChars s.data

theorem upper_toNat : ∀ r : Nat, r < 26 → (upper r).toNat = 65 + r := by
  decide

theorem upper_mem_alphabet : ∀ r : Nat, r < 26 → upper r ∈ asciiUppercase.data := by
  decide

theorem labelCharsAux_acc (fuel : Nat) :
    ∀ n label, labelCharsAux fuel n label = labelCharsAux fuel n [] ++ label := by
  induction fuel with
  | zero => intro n label; simp [labelCharsAux]
  | succ f ih =>
    intro n label
    by_cases h : n < 26
    · simp [labelCharsAux, h]
    · simp only [labelCharsAux, if_neg h]
      rw [ih (n / 26 - 1) (upper (n % 26) :: label), ih (n / 26 - 1) [upper (n % 26)]]
      simp

theorem lt_pow_self_26 (k : Nat) : k < 26 ^ (k + 1) := by
  induction k with
  | zero => decide
  | succ m ih =>
    have h1 : 26 ^ (m + 1) < 26 ^ (m + 2) := by
      apply Nat.pow_lt_pow_right (by decide)
      omega
    omega

theorem labelCharsAux_fuel_irrel (f : Nat) :
    ∀ g n label, n < 26 ^ (f + 1) → n < 26 ^ (g + 1) →
      labelCharsAux f n label = labelCharsAux g n label := by
  induction f with
  | zero =>
    intro g n label hf hg
    have hn : n < 26 := by simpa using hf
    cases g with
    | zero => rfl
    | succ g' => simp [labelCharsAux, hn]
  | succ f' ih =>
    intro g n label hf hg
    by_cases hn : n < 26
    · cases g with
      | zero => simp [labelCharsAux, hn]
      | succ g' => simp [labelCharsAux, hn]
    · cases g with
      | zero =>
        exfalso
        have : n < 26 := by simpa using hg
        exact hn this
      | succ g' =>
        simp only [labelCharsAux, if_neg hn]
        apply ih
        · have h26 : 0 < 26 := by decide
          have : n / 26 < 26 ^ (f' + 1) := by
            apply Nat.div_lt_of_lt_mul
            calc n < 26 ^ (f' + 2) := hf
            _ = 26 * 26 ^ (f' + 1) := by ring
          omega
        · have : n / 26 < 26 ^ (g' + 1) := by
            apply Nat.div_lt_of_lt_mul
            calc n < 26 ^ (g' + 2) := hg
            _ = 26 * 26 ^ (g' + 1) := by ring
          omega

/-- The defining equation of the label-building `while` loop:
one letter is appended (on the right) for `n % 26`, preceded by the
digits of `n / 26 - 1` when the loop continues (`n ≥ 26`). -/
theorem labelChars_eq (n : Nat) :
    labelChars n = (if n < 26 then [] else labelChars (n / 26 - 1)) ++ [upper (n % 26)] := by
  by_cases h : n < 26
  · simp only [if_pos h]
    unfold labelChars
    cases n with
    | zero => rfl
    | succ m => simp [labelCharsAux, h]
  · simp only [if_neg h]
    unfold labelChars
    have hn : 26 ≤ n := Nat.le_of_not_lt h
    obtain ⟨m, rfl⟩ : ∃ m, n = m + 1 := ⟨n - 1, by omega⟩
    show labelCharsAux (m + 1) (m + 1) [] = _
    simp only [labelCharsAux, if_neg h]
    rw [labelCharsAux_acc]
    have h1 : (m + 1) / 26 - 1 < 26 ^ (m + 1) := by
      have hle : (m + 1) / 26 - 1 ≤ m := by
        have := Nat.div_le_self (m + 1) 26
        omega
      exact lt_of_le_of_lt hle (lt_pow_self_26 m)
    rw [labelCharsAux_fuel_irrel m ((m + 1) / 26 - 1) ((m + 1) / 26 - 1) [] h1
      (lt_pow_self_26 _)]

/-- Round trip: decoding the label of `n` as a bijective base-26 numeral
gives `n + 1` (labels are 0-indexed, values 1-indexed as in Excel). -/
theorem decodeChars_labelChars (n : Nat) : decodeChars (labelChars n) = n + 1 := by
  induction n using Nat.strong_induction_on with
  | _ n ih =>
    rw [labelChars_eq]
    by_cases h : n < 26
    · simp only [if_pos h, List.nil_append, decodeChars, List.foldl_cons, List.foldl_nil]
      rw [upper_toNat (n % 26) (Nat.mod_lt _ (by decide))]
      have hm : n % 26 = n := Nat.mod_eq_of_lt h
      omega
    · simp only [if_neg h]
      have hrec : decodeChars (labelChars (n / 26 - 1)) = n / 26 - 1 + 1 := by
        apply ih
        have h1 : n / 26 < n := Nat.div_lt_self (by omega) (by decide)
        omega
      unfold decodeChars at hrec ⊢
      rw [List.foldl_append, hrec]
      simp only [List.foldl_cons, List.foldl_nil]
      rw [upper_toNat (n % 26) (Nat.mod_lt _ (by decide))]
      have hd : n / 26 - 1 + 1 = n / 26 := by
        have : 1 ≤ n / 26 := Nat.one_le_div_iff (by decide) |>.mpr (by omega)
        omega
      rw [hd]
      have := Nat.div_add_mod n 26
      omega

theorem labelOf_injective : Function.Injective labelOf := by
  intro a b hab
  have ha : decodeLabel (labelOf a) = a + 1 := decodeChars_labelChars a
  have hb : decodeLabel (labelOf b) = b + 1 := decodeChars_labelChars b
  rw [hab] at ha
  omega

theorem labelChars_mem_alphabet (n : Nat) :
    ∀ c ∈ labelChars n, c ∈ asciiUppercase.data := by
  induction n using Nat.strong_induction_on with
  | _ n ih =>
    rw [labelChars_eq]
    intro c hc
    rw [List.mem_append] at hc
    rcases hc with hc | hc
    · by_cases h : n < 26
      · simp [if_pos h] at hc
      · simp only [if_neg h] at hc
        exact ih (n / 26 - 1) (by
          have : n / 26 < n := Nat.div_lt_self (by omega) (by decide)
          omega) c hc
    · simp only [List.mem_singleton] at hc
      subst hc
      exact upper_mem_alphabet _ (Nat.mod_lt _ (by decide))

/-- **C1**: `generate_chain_labels(start_index, count)` returns exactly
`count` labels; the `i`-th is the label of the number `start_index + i`;
that label is the bijective base-26 (Excel-column-style) name of its
number over the uppercase alphabet — its letters are uppercase and its
positional bijective base-26 value is the number plus one — and the
anchor values `0 → "A"`, `25 → "Z"`, `26 → "AA"`, `701 → "ZZ"`,
`702 → "AAA"` all hold. -/
theorem generate_chain_labels_correct :
    (∀ s c, (generate_chain_labels s c).length = c) ∧
    (∀ s c, generate_chain_labels s c = (List.range c).map (fun i => labelOf (s + i))) ∧
    (∀ n, decodeLabel (labelOf n) = n + 1) ∧
    (∀ n, ∀ ch ∈ (labelOf n).data, ch ∈ asciiUppercase.data) ∧
    labelOf 0 = "A" ∧ labelOf 25 = "Z" ∧ labelOf 26 = "AA" ∧
    labelOf 701 = "ZZ" ∧ labelOf 702 = "AAA" := by
  refine ⟨?_, ?_, ?_, ?_, ?_, ?_, ?_, ?_, ?_⟩
  · intro s c; simp [generate_chain_labels]
  · intro s c; rfl
  · exact decodeChars_labelChars
  · intro n ch hch
    exact labelChars_mem_alphabet n ch hch
  · decide
  · decide
  · decide
  · decide
  · decide

/-- Witness for `generate_chain_labels_correct` at concrete inputs. -/
theorem generate_chain_labels_correct_witness :
    decodeLabel (labelOf 51) = 52 ∧ 'Z' ∈ asciiUppercase.data :=
  ⟨generate_chain_labels_correct.2.2.1 51,
   generate_chain_labels_correct.2.2.2.1 51 'Z' (by decide)⟩

/-! ## The job-request document model of `create_report.py`

A `*_job_request.json` file is a JSON array of entries; each entry has a
`name`, a `modelSeeds` list, and a `sequences` list whose elements hold
exactly one of the keys `proteinChain` / `dnaSequence` (or some other
key such as `rnaSequence` / `ligand`, which the script does not
handle).  The labeling pass (lines 39–53) may add a `chainLabels` key,
modelled as an `Option` field that is `none` for input documents. -/

inductive SeqKind
  | protein
  | dna
  | other
deriving DecidableEq

/-- One element of an entry's `sequences` list.  `kind` records which of
the keys `proteinChain` / `dnaSequence` (or neither) is present; `count`
and `seq` are the `count` and `sequence` fields of the inner object. -/
structure SequenceRec where
  kind : SeqKind
  count : Nat
  seq : String
  chainLabels : Option (List String) := none
deriving DecidableEq

/-- One entry of the job-request array. -/
structure Entry where
  name : String
  modelSeeds : List String
  sequences : List SequenceRec
deriving DecidableEq

/-! ## The labeling pass (`create_report.py` lines 39–53) -/

/-- The body of the inner `for sequence in entry["sequences"]` loop:
protein and DNA sequences receive `chainLabels` starting at the running
index and the index advances by `count`; any other sequence is left
untouched. -/
def assignSeq (idx : Nat) (s : SequenceRec) : SequenceRec × Nat :=
  match s.kind with
  | .protein => ({ s with chainLabels := some (generate_chain_labels idx s.count) }, idx + s.count)
  | .dna => ({ s with chainLabels := some (generate_chain_labels idx s.count) }, idx + s.count)
  | .other => (s, idx)

def assignSeqs : Nat → List SequenceRec → List SequenceRec × Nat
  | idx, [] => ([], idx)
  | idx, s :: rest =>
    let p := assignSeq idx s
    let q := assignSeqs p.2 rest
    (p.1 :: q.1, q.2)

def assignEntries : Nat → List Entry → List Entry × Nat
  | idx, [] => ([], idx)
  | idx, e :: rest =>
    let p := assignSeqs idx e.sequences
    let q := assignEntries p.2 rest
    ({ e with sequences := p.1 } :: q.1, q.2)

/-- The whole labeling pass: `last_used_index` starts at `0`. -/
def assignChainLabels (doc : List Entry) : List Entry := (assignEntries 0 doc).1

/-- Protein and DNA sequences are the ones that receive labels. -/
def isLabeledKind : SeqKind → Bool
  | .protein => true
  | .dna => true
  | .other => false

/-- Total chain count of the labelled sequences of a `sequences` list. -/
def seqCountSum (seqs : List SequenceRec) : Nat :=
  (seqs.map (fun s => if isLabeledKind s.kind then s.count else 0)).sum

/-- Total chain count of the labelled sequences of a whole document. -/
def totalCount (doc : List Entry) : Nat :=
  (doc.map (fun e => seqCountSum e.sequences)).sum

/-- The labels attached to one sequence (empty for unlabelled kinds). -/
def collectSeqLabels (s : SequenceRec) : List String :=
  if isLabeledKind s.kind then s.chainLabels.getD [] else []

/-- All labels attached to protein/DNA sequences of the document, in
document order. -/
def collectLabels (doc : List Entry) : List String :=
  (doc.map (fun e => (e.sequences.map collectSeqLabels).flatten)).flatten

theorem generate_chain_labels_eq_range' (idx c : Nat) :
    generate_chain_labels idx c = (List.range' idx c).map labelOf := by
  simp [generate_chain_labels, List.range'_eq_map_range, List.map_map, Function.comp]

theorem assignSeqs_spec (seqs : List SequenceRec) :
    ∀ idx : Nat,
      ((assignSeqs idx seqs).1.map collectSeqLabels).flatten
          = (List.range' idx (seqCountSum seqs)).map labelOf ∧
      (assignSeqs idx seqs).2 = idx + seqCountSum seqs := by
  induction seqs with
  | nil => intro idx; simp [assignSeqs, seqCountSum]
  | cons s rest ih =>
    intro idx
    obtain ⟨k, cnt, sq, cl⟩ := s
    cases k with
    | protein =>
      refine ⟨?_, ?_⟩
      · simp only [assignSeqs, assignSeq, List.map_cons, List.flatten_cons]
        have hcoll : collectSeqLabels
            ⟨SeqKind.protein, cnt, sq, some (generate_chain_labels idx cnt)⟩
            = generate_chain_labels idx cnt := rfl
        rw [hcoll, (ih (idx + cnt)).1, generate_chain_labels_eq_range',
          ← List.map_append, List.range'_append_1]
        have hsum : seqCountSum rest + cnt
            = seqCountSum (⟨SeqKind.protein, cnt, sq, cl⟩ :: rest) := by
          simp [seqCountSum, isLabeledKind]
          omega
        rw [hsum]
      · simp only [assignSeqs, assignSeq]
        rw [(ih (idx + cnt)).2]
        simp [seqCountSum, isLabeledKind]
        omega
    | dna =>
      refine ⟨?_, ?_⟩
      · simp only [assignSeqs, assignSeq, List.map_cons, List.flatten_cons]
        have hcoll : collectSeqLabels
            ⟨SeqKind.dna, cnt, sq, some (generate_chain_labels idx cnt)⟩
            = generate_chain_labels idx cnt := rfl
        rw [hcoll, (ih (idx + cnt)).1, generate_chain_labels_eq_range',
          ← List.map_append, List.range'_append_1]
        have hsum : seqCountSum rest + cnt
            = seqCountSum (⟨SeqKind.dna, cnt, sq, cl⟩ :: rest) := by
          simp [seqCountSum, isLabeledKind]
          omega
        rw [hsum]
      · simp only [assignSeqs, assignSeq]
        rw [(ih (idx + cnt)).2]
        simp [seqCountSum, isLabeledKind]
        omega
    | other =>
      refine ⟨?_, ?_⟩
      · simp only [assignSeqs, assignSeq, List.map_cons, List.flatten_cons]
        have hcoll : collectSeqLabels ⟨SeqKind.other, cnt, sq, cl⟩ = [] := rfl
        rw [hcoll, (ih idx).1]
        have hsum : seqCountSum rest
            = seqCountSum (⟨SeqKind.other, cnt, sq, cl⟩ :: rest) := by
          simp [seqCountSum, isLabeledKind]
        rw [← hsum]
        rfl
      · simp only [assignSeqs, assignSeq]
        rw [(ih idx).2]
        simp [seqCountSum, isLabeledKind]

theorem assignEntries_spec (doc : List Entry) :
    ∀ idx : Nat,
      (((assignEntries idx doc).1.map
          (fun e => (e.sequences.map collectSeqLabels).flatten)).flatten)
          = (List.range' idx (totalCount doc)).map labelOf ∧
      (assignEntries idx doc).2 = idx + totalCount doc := by
  induction doc with
  | nil => intro idx; simp [assignEntries, totalCount]
  | cons e rest ih =>
    intro idx
    have hs := assignSeqs_spec e.sequences idx
    constructor
    · simp only [assignEntries, List.map_cons, List.flatten_cons]
      rw [hs.1, hs.2, (ih (idx + seqCountSum e.sequences)).1,
        ← List.map_append, List.range'_append_1]
      have hsum : totalCount rest + seqCountSum e.sequences
          = totalCount (e :: rest) := by
        simp [totalCount]
        omega
      rw [hsum]
    · simp only [assignEntries]
      rw [hs.2, (ih (idx + seqCountSum e.sequences)).2]
      simp [totalCount]
      omega

/-- **C6**: over a whole job-request document, the labels attached by the
labeling pass to all protein/DNA sequences, in document order, are
exactly the labels of the numbers `0 .. totalCount - 1` (numbering
continues across entries instead of restarting at `"A"`), and they are
pairwise distinct. -/
theorem assignChainLabels_global :
    ∀ doc : List Entry,
      collectLabels (assignChainLabels doc)
          = (List.range (totalCount doc)).map labelOf ∧
      (collectLabels (assignChainLabels doc)).Nodup := by
  intro doc
  have h := assignEntries_spec doc 0
  have hcoll : collectLabels (assignChainLabels doc)
      = (List.range (totalCount doc)).map labelOf := by
    unfold collectLabels assignChainLabels
    rw [h.1, List.range_eq_range']
  refine ⟨hcoll, ?_⟩
  rw [hcoll]
  exact (List.nodup_range _).map labelOf_injective

/-! ## `wrap_long_text` (create_report.py lines 68–70)

```python
def wrap_long_text(text, max_length):
    """Split text into lines of specified max length."""
    return [text[i:i + max_length] for i in range(0, len(text), max_length)]
```
-/

/-- Python `range(start, stop, step)` for a non-negative step (a zero
step raises in Python and never occurs in the source; we return `[]`). -/
def pyRange (start stop step : Nat) : List Nat :=
  if step = 0 then []
  else List.range' start ((stop - start + step - 1) / step) step

/-- Python slice `text[a:b]` for `0 ≤ a ≤ b`. -/
def strSlice (text : String) (a b : Nat) : String :=
  String.mk ((text.data.drop a).take (b - a))

/-- `wrap_long_text(text, max_length)`. -/
def wrap_long_text (text : String) (maxLength : Nat) : List String :=
  (pyRange 0 text.length maxLength).map (fun i => strSlice text i (i + maxLength))

/-- Proof device: splitting a character list into chunks of `m`,
defined by structural recursion on a fuel that `chunks` instantiates
with the list length. -/
def chunksF : Nat → List Char → Nat → List (List Char)
  | _, [], _ => []
  | 0, _ :: _, _ => []
  | f + 1, c :: cs, m => (c :: cs).take m :: chunksF f ((c :: cs).drop m) m

def chunks (l : List Char) (m : Nat) : List (List Char) := chunksF l.length l m

theorem chunksF_fuel (f : Nat) :
    ∀ g l (m : Nat), 0 < m → l.length ≤ f → l.length ≤ g →
      chunksF f l m = chunksF g l m := by
  induction f with
  | zero =>
    intro g l m hm hf hg
    have hl : l = [] := List.eq_nil_of_length_eq_zero (Nat.le_zero.mp hf)
    subst hl
    cases g <;> rfl
  | succ f' ih =>
    intro g l m hm hf hg
    cases l with
    | nil => cases g <;> rfl
    | cons c cs =>
      cases g with
      | zero => simp at hg
      | succ g' =>
        simp only [chunksF]
        have hdrop : ((c :: cs).drop m).length = cs.length + 1 - m := by
          simp [List.length_drop]
        congr 1
        apply ih
        · exact hm
        · simp only [List.length_cons] at hf
          omega
        · simp only [List.length_cons] at hg
          omega

theorem chunks_cons_eq (m : Nat) (hm : 0 < m) (l : List Char) (hl : l ≠ []) :
    chunks l m = l.take m :: chunks (l.drop m) m := by
  cases l with
  | nil => exact absurd rfl hl
  | cons c cs =>
    show chunksF (cs.length + 1) (c :: cs) m = _
    simp only [chunksF]
    congr 1
    apply chunksF_fuel _ _ _ _ hm
    · have : ((c :: cs).drop m).length = cs.length + 1 - m := by
        simp [List.length_drop]
      omega
    · exact Nat.le_refl _

theorem chunks_eq_nil_iff (m : Nat) (hm : 0 < m) (l : List Char) :
    chunks l m = [] ↔ l = [] := by
  cases l with
  | nil => simp [chunks, chunksF]
  | cons c cs =>
    rw [chunks_cons_eq m hm _ (by simp)]
    simp

theorem wrap_eq_chunks (m : Nat) (hm : 0 < m) :
    ∀ text : String, (wrap_long_text text m).map String.data = chunks text.data m := by
  have hm0 : m ≠ 0 := Nat.pos_iff_ne_zero.mp hm
  suffices h : ∀ n (text : String), text.data.length = n →
      (wrap_long_text text m).map String.data = chunks text.data m by
    intro text
    exact h _ text rfl
  intro n
  induction n using Nat.strong_induction_on with
  | _ n ih =>
    intro text hlen
    obtain ⟨l⟩ := text
    simp only at hlen
    cases l with
    | nil =>
      have h0 : (m - 1) / m = 0 := Nat.div_eq_of_lt (by omega)
      simp [wrap_long_text, pyRange, hm0, h0, chunks, chunksF]
    | cons c cs =>
      have hN : (c :: cs).length = cs.length + 1 := by simp
      have hNpos : 1 ≤ (c :: cs).length := by omega
      have hcnt1 : 1 ≤ ((c :: cs).length - 0 + m - 1) / m := by
        have : m ≤ (c :: cs).length - 0 + m - 1 := by omega
        exact Nat.one_le_div_iff hm |>.mpr this
      have hrange : pyRange 0 (String.mk (c :: cs)).length m
          = 0 :: List.range' m (((c :: cs).length - 0 + m - 1) / m - 1) m := by
        simp only [pyRange, if_neg hm0, String.length_mk]
        obtain ⟨k, hk⟩ : ∃ k, ((c :: cs).length - 0 + m - 1) / m = k + 1 :=
          ⟨((c :: cs).length - 0 + m - 1) / m - 1, (Nat.sub_add_cancel hcnt1).symm⟩
        rw [hk]
        simp [List.range'_succ]
      have hdl : ((c :: cs).drop m).length = (c :: cs).length - m := by
        simp [List.length_drop]
      -- the tail count matches the count for the dropped text
      have hcnt' : (((c :: cs).drop m).length - 0 + m - 1) / m
          = ((c :: cs).length - 0 + m - 1) / m - 1 := by
        rw [hdl]
        by_cases hNm : (c :: cs).length ≤ m
        · have e1 : (c :: cs).length - m - 0 + m - 1 = m - 1 := by omega
          rw [e1, Nat.div_eq_of_lt (by omega)]
          have e3 : ((c :: cs).length - 0 + m - 1) / m = 1 := by
            apply Nat.div_eq_of_lt_le
            · omega
            · omega
          rw [e3]
        · have e1 : (c :: cs).length - m - 0 + m - 1 = (c :: cs).length - 1 := by omega
          have e2 : (c :: cs).length - 0 + m - 1 = ((c :: cs).length - 1) + m := by omega
          rw [e1, e2, Nat.add_div_right _ hm]
          exact (Nat.add_sub_cancel _ _).symm
      have hihcall : (wrap_long_text (String.mk ((c :: cs).drop m)) m).map String.data
          = chunks ((c :: cs).drop m) m := by
        apply ih (((c :: cs).drop m).length)
        · omega
        · rfl
      rw [chunks_cons_eq m hm (c :: cs) (by simp)]
      simp only [wrap_long_text, hrange, List.map_cons, List.map_map]
      congr 1
      · -- the head slice is `(c :: cs).take m`
        simp [strSlice]
      · -- the tail slices are the slices of the dropped text
        rw [← hihcall]
        have hshift : List.range' m (((c :: cs).length - 0 + m - 1) / m - 1) m
            = (List.range' 0 (((c :: cs).length - 0 + m - 1) / m - 1) m).map
                (fun j => m + j) := by
          simp [List.map_add_range']
        rw [hshift, List.map_map]
        simp only [wrap_long_text, pyRange, if_neg hm0, String.length_mk, hcnt',
          List.map_map]
        apply List.map_congr_left
        intro j hj
        simp only [Function.comp_apply, strSlice]
        show ((c :: cs).drop (m + j)).take (m + j + m - (m + j))
            = (((c :: cs).drop m).drop j).take (j + m - j)
        have h1 : m + j + m - (m + j) = m := by omega
        have h2 : j + m - j = m := by omega
        rw [h1, h2, List.drop_drop]

theorem chunks_flatten (m : Nat) (hm : 0 < m) :
    ∀ n (l : List Char), l.length = n → (chunks l m).flatten = l := by
  intro n
  induction n using Nat.strong_induction_on with
  | _ n ih =>
    intro l hlen
    cases l with
    | nil => rfl
    | cons c cs =>
      simp only [List.length_cons] at hlen
      have hdl : ((c :: cs).drop m).length = cs.length + 1 - m := by
        simp [List.length_drop]
      have hlt : ((c :: cs).drop m).length < n := by
        rw [hdl]
        omega
      rw [chunks_cons_eq m hm _ (by simp), List.flatten_cons,
        ih ((c :: cs).drop m).length hlt _ rfl,
        List.take_append_drop]

theorem chunks_middle_length (m : Nat) (hm : 0 < m) :
    ∀ n (l : List Char) (i : Nat), l.length = n → i + 1 < (chunks l m).length →
      ((chunks l m).getD i []).length = m := by
  intro n
  induction n using Nat.strong_induction_on with
  | _ n ih =>
    intro l i hlen hi
    cases l with
    | nil => simp [chunks, chunksF] at hi
    | cons c cs =>
      simp only [List.length_cons] at hlen
      have hdl : ((c :: cs).drop m).length = cs.length + 1 - m := by
        simp [List.length_drop]
      rw [chunks_cons_eq m hm _ (by simp)] at hi ⊢
      cases i with
      | zero =>
        simp only [List.length_cons] at hi
        have htail : chunks ((c :: cs).drop m) m ≠ [] := by
          intro hnil
          rw [hnil] at hi
          simp at hi
        have hdrop : (c :: cs).drop m ≠ [] :=
          fun hnil => htail ((chunks_eq_nil_iff m hm _).mpr hnil)
        have hlong : m < cs.length + 1 := by
          by_contra hle
          apply hdrop
          apply List.drop_eq_nil_iff.mpr
          simp only [List.length_cons]
          omega
        simp [List.length_take]
        omega
      | succ i' =>
        simp only [List.getD_cons_succ]
        have hi' : i' + 1 < (chunks ((c :: cs).drop m) m).length := by
          simpa using hi
        have hlt : ((c :: cs).drop m).length < n := by
          rw [hdl]
          omega
        exact ih ((c :: cs).drop m).length hlt _ i' rfl hi'

theorem chunks_last_length (m : Nat) (hm : 0 < m) :
    ∀ n (l : List Char), l.length = n → l ≠ [] →
      1 ≤ ((chunks l m).getLast?.getD []).length ∧
      ((chunks l m).getLast?.getD []).length ≤ m := by
  intro n
  induction n using Nat.strong_induction_on with
  | _ n ih =>
    intro l hlen hl
    cases l with
    | nil => exact absurd rfl hl
    | cons c cs =>
      simp only [List.length_cons] at hlen
      have hdl : ((c :: cs).drop m).length = cs.length + 1 - m := by
        simp [List.length_drop]
      rw [chunks_cons_eq m hm _ (by simp)]
      cases hrest : chunks ((c :: cs).drop m) m with
      | nil =>
        have hdrop : (c :: cs).drop m = [] := (chunks_eq_nil_iff m hm _).mp hrest
        have hshort : cs.length + 1 ≤ m := by
          have := List.drop_eq_nil_iff.mp hdrop
          simp only [List.length_cons] at this
          omega
        simp [List.length_take]
        omega
      | cons r rs =>
        rw [List.getLast?_cons_cons]
        have hdrop : (c :: cs).drop m ≠ [] := by
          intro hnil
          rw [(chunks_eq_nil_iff m hm _).mpr hnil] at hrest
          exact List.noConfusion hrest
        have hlt : ((c :: cs).drop m).length < n := by
          rw [hdl]
          omega
        have hres := ih ((c :: cs).drop m).length hlt _ rfl hdrop
        rwa [hrest] at hres

theorem String.join_data' :
    ∀ (ss : List String) (acc : String),
      (List.foldl (fun r s => r ++ s) acc ss).data
        = acc.data ++ (ss.map String.data).flatten := by
  intro ss
  induction ss with
  | nil => intro acc; simp
  | cons s rest ih =>
    intro acc
    simp only [List.foldl_cons, List.map_cons, List.flatten_cons]
    rw [ih (acc ++ s)]
    simp

theorem join_data (ss : List String) :
    (String.join ss).data = (ss.map String.data).flatten := by
  show (List.foldl (fun r s => r ++ s) "" ss).data = _
  rw [String.join_data' ss ""]
  rfl

theorem str_length_data : ∀ s : String, s.length = s.data.length :=
  fun ⟨_⟩ => rfl

theorem getD_data (ws : List String) (i : Nat) :
    (ws.getD i "").data = (ws.map String.data).getD i [] := by
  simp only [List.getD_eq_getElem?_getD, List.getElem?_map]
  cases ws[i]? with
  | none => rfl
  | some s => rfl

theorem getLast_data (ws : List String) :
    (ws.getLast?.getD "").data = (ws.map String.data).getLast?.getD [] := by
  rw [List.getLast?_map]
  cases ws.getLast? with
  | none => rfl
  | some s => rfl

/-- **C7**: for `max_length > 0`, `wrap_long_text` is a partition of its
argument: the concatenation of the returned lines is the input text,
every line except possibly the last has length exactly `max_length`,
for a non-empty text the last line has length between `1` and
`max_length`, and the empty text yields no lines. -/
theorem wrap_long_text_partition (text : String) (m : Nat) (hm : 0 < m) :
    String.join (wrap_long_text text m) = text ∧
    (∀ i, i + 1 < (wrap_long_text text m).length →
      ((wrap_long_text text m).getD i "").length = m) ∧
    (text ≠ "" →
      1 ≤ ((wrap_long_text text m).getLast?.getD "").length ∧
      ((wrap_long_text text m).getLast?.getD "").length ≤ m) ∧
    (text = "" → wrap_long_text text m = []) := by
  have hmap := wrap_eq_chunks m hm text
  refine ⟨?_, ?_, ?_, ?_⟩
  · apply String.ext
    rw [join_data, hmap, chunks_flatten m hm _ _ rfl]
  · intro i hi
    rw [str_length_data, getD_data, hmap]
    apply chunks_middle_length m hm _ _ _ rfl
    have : (wrap_long_text text m).length = (chunks text.data m).length := by
      rw [← hmap, List.length_map]
    omega
  · intro htext
    have hdata : text.data ≠ [] := by
      intro hnil
      exact htext (String.ext hnil)
    rw [str_length_data, getLast_data, hmap]
    exact chunks_last_length m hm _ _ rfl hdata
  · intro htext
    subst htext
    have : (wrap_long_text "" m).map String.data = [] := by
      rw [hmap]
      rfl
    exact List.map_eq_nil_iff.mp this

/-- Witness for `wrap_long_text_partition` at a concrete input. -/
theorem wrap_long_text_partition_witness :
    String.join (wrap_long_text "ABCDEFG" 3) = "ABCDEFG" :=
  (wrap_long_text_partition "ABCDEFG" 3 (by decide)).1

/-! ## Python exceptions and the PDF canvas

`PyErr` models the exception classes relevant to the scripts; `PdfOp`
models the reportlab canvas calls made by
`generate_alphafold_pdf_report` (lines 55–132). -/

inductive PyErr
  | fileNotFound
  | keyError
  | valueError
  | indexError
deriving DecidableEq

inductive PdfOp
  | setFont (font : String) (size : Nat)
  | drawString (x y : Int) (s : String)
  | showPage
deriving DecidableEq

/-- `letter` page size from `reportlab.lib.pagesizes` (points). -/
def letterWidth : Int := 612

def letterHeight : Int := 792

/-- `margin = 50` (line 61). -/
def margin : Int := 50

/-- `line_spacing = 14` (line 62). -/
def lineSpacing : Int := 14

/-- `max_line_length = 60` (line 66). -/
def maxLineLength : Nat := 60

/-- `", ".join(...)`. -/
def joinComma (l : List String) : String := String.intercalate ", " l

/-- The page-break check (lines 119–122 and 126–129): when the cursor is
below the margin, emit a new page, reset the font, and reset the cursor
to the top. -/
def pageCheck (y : Int) : List PdfOp × Int :=
  if y < margin then
    ([PdfOp.showPage, PdfOp.setFont "Helvetica" 10], letterHeight - margin)
  else
    ([], y)

/-- Draw a list of already-wrapped lines at indentation `x`, moving the
cursor down by `line_spacing` after each (lines 101–103 / 114–116). -/
def drawLines (x : Int) : List String → Int → List PdfOp × Int
  | [], y => ([], y)
  | l :: rest, y =>
    let p := drawLines x rest (y - lineSpacing)
    (PdfOp.drawString x y l :: p.1, p.2)

/-- The protein/DNA branch of the sequence loop (lines 92–116): move
down one line, draw the header, move down, draw the wrapped sequence
lines.  A sequence with neither key draws nothing. -/
def renderSeqBody (s : SequenceRec) (chainLabels : String) (y : Int) : List PdfOp × Int :=
  match s.kind with
  | .protein =>
    let header := "Protein Sequence Chains " ++ chainLabels ++ " (Count = "
      ++ toString s.count ++ ", Length = " ++ toString s.seq.length ++ "):"
    let p := drawLines (margin + 40) (wrap_long_text s.seq maxLineLength)
      (y - 2 * lineSpacing)
    (PdfOp.drawString (margin + 20) (y - lineSpacing) header :: p.1, p.2)
  | .dna =>
    let header := "DNA Sequence Chains " ++ chainLabels ++ " (Count = "
      ++ toString s.count ++ ", Length = " ++ toString s.seq.length ++ "):"
    let p := drawLines (margin + 40) (wrap_long_text s.seq maxLineLength)
      (y - 2 * lineSpacing)
    (PdfOp.drawString (margin + 20) (y - lineSpacing) header :: p.1, p.2)
  | .other => ([], y)

/-- One iteration of `for sequence in entry["sequences"]` (lines 89–122):
`sequence["chainLabels"]` is read first (line 91) and raises `KeyError`
when the key is absent; then the kind-specific drawing runs, and finally
the page-break check. -/
def renderSeqStep (s : SequenceRec) (y : Int) : Except PyErr (List PdfOp × Int) :=
  match s.chainLabels with
  | none => .error .keyError
  | some ls =>
    let body := renderSeqBody s (joinComma ls) y
    let chk := pageCheck body.2
    .ok (body.1 ++ chk.1, chk.2)

def renderSeqs : List SequenceRec → Int → Except PyErr (List PdfOp × Int)
  | [], y => .ok ([], y)
  | s :: rest, y =>
    match renderSeqStep s y with
    | .error e => .error e
    | .ok p =>
      match renderSeqs rest p.2 with
      | .error e => .error e
      | .ok q => .ok (p.1 ++ q.1, q.2)

/-- One iteration of `for entry in data` (lines 72–129): bold title,
seeds line, `"Sequences:"` line, the sequence loop, the inter-entry
spacing and the final page-break check. -/
def entryHeaderOps (e : Entry) (y : Int) : List PdfOp :=
  [PdfOp.setFont "Helvetica-Bold" 12,
   PdfOp.drawString margin y e.name,
   PdfOp.setFont "Helvetica" 10,
   PdfOp.drawString margin (y - lineSpacing) ("Model Seeds: " ++ joinComma e.modelSeeds),
   PdfOp.drawString margin (y - 2 * lineSpacing) "Sequences:"]

def renderEntry (e : Entry) (y : Int) : Except PyErr (List PdfOp × Int) :=
  match renderSeqs e.sequences (y - 3 * lineSpacing) with
  | .error e' => .error e'
  | .ok p =>
    let chk := pageCheck (p.2 - lineSpacing)
    .ok (entryHeaderOps e y ++ p.1 ++ chk.1, chk.2)

def renderEntries : List Entry → Int → Except PyErr (List PdfOp × Int)
  | [], y => .ok ([], y)
  | e :: rest, y =>
    match renderEntry e y with
    | .error e' => .error e'
    | .ok p =>
      match renderEntries rest p.2 with
      | .error e' => .error e'
      | .ok q => .ok (p.1 ++ q.1, q.2)

/-- `generate_alphafold_pdf_report` after the JSON load: the labeling
pass, the initial font setting (line 60) with the cursor starting at
`height - margin` (line 63), and the entry loop.  The returned canvas
operations end up in the PDF written to `output_pdf_path`. -/
def generate_alphafold_pdf_report (doc : List Entry) : Except PyErr (List PdfOp) :=
  match renderEntries (assignChainLabels doc) (letterHeight - margin) with
  | .error e => .error e
  | .ok p => .ok (PdfOp.setFont "Helvetica" 10 :: p.1)

/-- Is some text drawn strictly below the bottom margin? -/
def hasDrawBelowMargin (ops : List PdfOp) : Bool :=
  ops.any (fun op =>
    match op with
    | .drawString _ y _ => y < margin
    | _ => false)

def checkBelowMargin (r : Except PyErr (List PdfOp)) : Bool :=
  match r with
  | .ok ops => hasDrawBelowMargin ops
  | .error _ => false

/-- A document of 13 entries with empty `sequences` lists.  Each entry
moves the cursor down by `4 * line_spacing = 56` and the page-break
check only runs after the whole entry, so entry 13 starts at
`y = 742 - 12 * 56 = 70` and draws its `"Sequences:"` line at
`y = 70 - 28 = 42 < 50`, below the margin. -/
def belowMarginDoc : List Entry :=
  List.replicate 13 { name := "Entry", modelSeeds := [], sequences := [] }

/-- **C3 counterexample**: the report for `belowMarginDoc` draws text
strictly below the bottom margin, because the cursor is checked against
the margin only after each sequence block and after each entry, not
before each drawn line. -/
theorem c3_counterexample :
    checkBelowMargin (generate_alphafold_pdf_report belowMarginDoc) = true := by
  decide

/-! ### The pagination invariant that does hold (C3 amended)

The cursor is checked against the margin only after each sequence block
and after each entry, so every check exit leaves the cursor at or above
the margin, and hence the start of every entry — in particular every
entry title, the only text drawn in the bold font — is at or above the
margin.  Lines drawn inside a block can still fall below it
(`c3_counterexample`). -/

/-- The y-positions of text drawn while the current font is
`"Helvetica-Bold"`, scanning the operation stream with the font as
state (entry titles are the only such text). -/
def boldDrawYs : List PdfOp → String → List Int
  | [], _ => []
  | PdfOp.setFont f _ :: rest, _ => boldDrawYs rest f
  | PdfOp.drawString _ y _ :: rest, f =>
    (if f = "Helvetica-Bold" then [y] else []) ++ boldDrawYs rest f
  | PdfOp.showPage :: rest, f => boldDrawYs rest f

/-- The font state after executing a stream of operations. -/
def fontAfter : List PdfOp → String → String
  | [], f => f
  | PdfOp.setFont g _ :: rest, _ => fontAfter rest g
  | PdfOp.drawString _ _ _ :: rest, f => fontAfter rest f
  | PdfOp.showPage :: rest, f => fontAfter rest f

theorem boldDrawYs_append :
    ∀ (a b : List PdfOp) (f : String),
      boldDrawYs (a ++ b) f = boldDrawYs a f ++ boldDrawYs b (fontAfter a f) := by
  intro a
  induction a with
  | nil => intro b f; rfl
  | cons op rest ih =>
    intro b f
    cases op with
    | setFont g sz => simp [boldDrawYs, fontAfter, ih]
    | drawString x y s => simp [boldDrawYs, fontAfter, ih]
    | showPage => simp [boldDrawYs, fontAfter, ih]

theorem fontAfter_append :
    ∀ (a b : List PdfOp) (f : String),
      fontAfter (a ++ b) f = fontAfter b (fontAfter a f) := by
  intro a
  induction a with
  | nil => intro b f; rfl
  | cons op rest ih =>
    intro b f
    cases op <;> simp [fontAfter, ih]

theorem pageCheck_snd (y : Int) : margin ≤ (pageCheck y).2 := by
  unfold pageCheck
  split
  · decide
  · omega

theorem pageCheck_noBold (y : Int) :
    boldDrawYs (pageCheck y).1 "Helvetica" = []
      ∧ fontAfter (pageCheck y).1 "Helvetica" = "Helvetica" := by
  unfold pageCheck
  split
  · exact ⟨rfl, rfl⟩
  · exact ⟨rfl, rfl⟩

theorem drawLines_noBold (x : Int) :
    ∀ (lines : List String) (y : Int),
      boldDrawYs (drawLines x lines y).1 "Helvetica" = []
        ∧ fontAfter (drawLines x lines y).1 "Helvetica" = "Helvetica" := by
  intro lines
  induction lines with
  | nil => intro y; exact ⟨rfl, rfl⟩
  | cons l rest ih =>
    intro y
    have h := ih (y - lineSpacing)
    constructor
    · show boldDrawYs (PdfOp.drawString x y l :: (drawLines x rest (y - lineSpacing)).1)
        "Helvetica" = []
      simp [boldDrawYs, h.1]
    · show fontAfter (PdfOp.drawString x y l :: (drawLines x rest (y - lineSpacing)).1)
        "Helvetica" = "Helvetica"
      simp [fontAfter, h.2]

theorem renderSeqBody_noBold (s : SequenceRec) (cl : String) (y : Int) :
    boldDrawYs (renderSeqBody s cl y).1 "Helvetica" = []
      ∧ fontAfter (renderSeqBody s cl y).1 "Helvetica" = "Helvetica" := by
  unfold renderSeqBody
  cases s.kind with
  | protein =>
    have h := drawLines_noBold (margin + 40) (wrap_long_text s.seq maxLineLength)
      (y - 2 * lineSpacing)
    exact ⟨by simp [boldDrawYs, h.1], by simp [fontAfter, h.2]⟩
  | dna =>
    have h := drawLines_noBold (margin + 40) (wrap_long_text s.seq maxLineLength)
      (y - 2 * lineSpacing)
    exact ⟨by simp [boldDrawYs, h.1], by simp [fontAfter, h.2]⟩
  | other => exact ⟨rfl, rfl⟩

theorem renderSeqStep_inv (s : SequenceRec) (y : Int) (p : List PdfOp × Int)
    (h : renderSeqStep s y = .ok p) :
    boldDrawYs p.1 "Helvetica" = []
      ∧ fontAfter p.1 "Helvetica" = "Helvetica" ∧ margin ≤ p.2 := by
  unfold renderSeqStep at h
  cases hcl : s.chainLabels with
  | none => rw [hcl] at h; exact absurd h (by simp)
  | some ls =>
    rw [hcl] at h
    simp only [Except.ok.injEq] at h
    subst h
    have hb := renderSeqBody_noBold s (joinComma ls) y
    have hc := pageCheck_noBold (renderSeqBody s (joinComma ls) y).2
    refine ⟨?_, ?_, ?_⟩
    · rw [boldDrawYs_append, hb.1, hb.2, hc.1]
      rfl
    · rw [fontAfter_append, hb.2, hc.2]
    · exact pageCheck_snd _

theorem renderSeqs_inv (seqs : List SequenceRec) :
    ∀ (y : Int) (p : List PdfOp × Int), renderSeqs seqs y = .ok p →
      boldDrawYs p.1 "Helvetica" = []
        ∧ fontAfter p.1 "Helvetica" = "Helvetica"
        ∧ (margin ≤ y → margin ≤ p.2) := by
  induction seqs with
  | nil =>
    intro y p h
    simp only [renderSeqs, Except.ok.injEq] at h
    subst h
    exact ⟨rfl, rfl, fun hy => hy⟩
  | cons s rest ih =>
    intro y p h
    unfold renderSeqs at h
    cases hstep : renderSeqStep s y with
    | error e => rw [hstep] at h; exact absurd h (by simp)
    | ok p1 =>
      rw [hstep] at h
      dsimp only at h
      cases hrest : renderSeqs rest p1.2 with
      | error e => rw [hrest] at h; exact absurd h (by simp)
      | ok q =>
        rw [hrest] at h
        simp only [Except.ok.injEq] at h
        subst h
        have h1 := renderSeqStep_inv s y p1 hstep
        have h2 := ih p1.2 q hrest
        refine ⟨?_, ?_, ?_⟩
        · rw [boldDrawYs_append, h1.1, h1.2.1, h2.1]
          rfl
        · rw [fontAfter_append, h1.2.1, h2.2.1]
        · intro _
          exact h2.2.2 h1.2.2

theorem renderEntry_inv (e : Entry) (y : Int) (p : List PdfOp × Int)
    (hy : margin ≤ y) (h : renderEntry e y = .ok p) :
    (∀ z ∈ boldDrawYs p.1 "Helvetica", margin ≤ z)
      ∧ fontAfter p.1 "Helvetica" = "Helvetica" ∧ margin ≤ p.2 := by
  unfold renderEntry at h
  cases hs : renderSeqs e.sequences (y - 3 * lineSpacing) with
  | error e' => rw [hs] at h; exact absurd h (by simp)
  | ok ps =>
    rw [hs] at h
    simp only [Except.ok.injEq] at h
    subst h
    have hseq := renderSeqs_inv e.sequences _ ps hs
    have hchk := pageCheck_noBold (ps.2 - lineSpacing)
    have hhead : boldDrawYs (entryHeaderOps e y) "Helvetica" = [y] := rfl
    have hheadf : fontAfter (entryHeaderOps e y) "Helvetica" = "Helvetica" := rfl
    refine ⟨?_, ?_, pageCheck_snd _⟩
    · intro z hz
      rw [boldDrawYs_append, boldDrawYs_append, hhead, hheadf, hseq.1,
        fontAfter_append, hheadf, hseq.2.1, hchk.1] at hz
      simp only [List.append_nil, List.mem_singleton] at hz
      subst hz
      exact hy
    · rw [fontAfter_append, fontAfter_append, hheadf, hseq.2.1, hchk.2]

theorem renderEntries_inv (doc : List Entry) :
    ∀ (y : Int) (p : List PdfOp × Int), margin ≤ y → renderEntries doc y = .ok p →
      (∀ z ∈ boldDrawYs p.1 "Helvetica", margin ≤ z)
        ∧ fontAfter p.1 "Helvetica" = "Helvetica" ∧ margin ≤ p.2 := by
  induction doc with
  | nil =>
    intro y p hy h
    simp only [renderEntries, Except.ok.injEq] at h
    subst h
    exact ⟨by simp [boldDrawYs], rfl, hy⟩
  | cons e rest ih =>
    intro y p hy h
    unfold renderEntries at h
    cases he : renderEntry e y with
    | error e' => rw [he] at h; exact absurd h (by simp)
    | ok p1 =>
      rw [he] at h
      dsimp only at h
      cases hrest : renderEntries rest p1.2 with
      | error e' => rw [hrest] at h; exact absurd h (by simp)
      | ok q =>
        rw [hrest] at h
        simp only [Except.ok.injEq] at h
        subst h
        have h1 := renderEntry_inv e y p1 hy he
        have h2 := ih p1.2 q h1.2.2 hrest
        refine ⟨?_, ?_, h2.2.2⟩
        · intro z hz
          rw [boldDrawYs_append, h1.2.1] at hz
          rcases List.mem_append.mp hz with hz | hz
          · exact h1.1 z hz
          · exact h2.1 z hz
        · rw [fontAfter_append, h1.2.1, h2.2.1]

/-- **C3 amended**: the page-break check runs only after each sequence
block and after each entry, so a new page is emitted at the first check
after the cursor crosses the margin: every check exit leaves the cursor
at or above the margin (first three conjuncts), and therefore every
entry title — the only text drawn in the bold font — is drawn at or
above the margin (last conjunct).  Lines drawn inside a block (seeds,
headers, wrapped sequence lines) can still fall below the margin, as
`c3_counterexample` shows. -/
theorem report_pagination_invariant :
    (∀ y : Int, margin ≤ (pageCheck y).2) ∧
    (∀ y : Int, margin ≤ y → pageCheck y = ([], y)) ∧
    (∀ y : Int, y < margin →
      pageCheck y = ([PdfOp.showPage, PdfOp.setFont "Helvetica" 10],
        letterHeight - margin)) ∧
    (∀ (doc : List Entry) (ops : List PdfOp) (f0 : String),
      generate_alphafold_pdf_report doc = .ok ops →
      ∀ z ∈ boldDrawYs ops f0, margin ≤ z) := by
  refine ⟨pageCheck_snd, ?_, ?_, ?_⟩
  · intro y hy
    unfold pageCheck
    rw [if_neg (by omega)]
  · intro y hy
    unfold pageCheck
    rw [if_pos hy]
  · intro doc ops f0 h z hz
    unfold generate_alphafold_pdf_report at h
    cases hr : renderEntries (assignChainLabels doc) (letterHeight - margin) with
    | error e => rw [hr] at h; exact absurd h (by simp)
    | ok p =>
      rw [hr] at h
      simp only [Except.ok.injEq] at h
      subst h
      have hinv := renderEntries_inv (assignChainLabels doc) _ p (by decide) hr
      have hred : boldDrawYs (PdfOp.setFont "Helvetica" 10 :: p.1) f0
          = boldDrawYs p.1 "Helvetica" := rfl
      rw [hred] at hz
      exact hinv.1 z hz

/-- Witness for `report_pagination_invariant` at concrete inputs. -/
theorem report_pagination_invariant_witness :
    pageCheck 60 = ([], 60) ∧ margin ≤ (742 : Int) := by
  constructor
  · exact report_pagination_invariant.2.1 60 (by decide)
  · apply report_pagination_invariant.2.2.2
      [{ name := "E", modelSeeds := [], sequences := [] }] _ "x" rfl
    decide

/-! ### `KeyError` on sequences with neither key (C8) -/

theorem renderSeqStep_ok_of_some (s : SequenceRec) (ls : List String) (y : Int)
    (h : s.chainLabels = some ls) :
    renderSeqStep s y = .ok
      ((renderSeqBody s (joinComma ls) y).1
          ++ (pageCheck (renderSeqBody s (joinComma ls) y).2).1,
        (pageCheck (renderSeqBody s (joinComma ls) y).2).2) := by
  unfold renderSeqStep
  rw [h]

theorem renderSeqs_assign_err (seqs : List SequenceRec) :
    ∀ (idx : Nat) (y : Int),
      (∀ s ∈ seqs, s.chainLabels = none) →
      (∃ s ∈ seqs, s.kind = .other) →
      renderSeqs (assignSeqs idx seqs).1 y = .error .keyError := by
  induction seqs with
  | nil =>
    intro idx y _ hex
    simp at hex
  | cons s rest ih =>
    intro idx y hnone hex
    obtain ⟨k, cnt, sq, cl⟩ := s
    have hclnone : cl = none := by
      have := hnone ⟨k, cnt, sq, cl⟩ (by simp)
      simpa using this
    subst hclnone
    cases k with
    | other =>
      simp [assignSeqs, assignSeq, renderSeqs, renderSeqStep]
    | protein =>
      have hex' : ∃ s' ∈ rest, s'.kind = .other := by
        rcases hex with ⟨s', hs', hk⟩
        rcases List.mem_cons.mp hs' with h | h
        · rw [h] at hk
          simp at hk
        · exact ⟨s', h, hk⟩
      have hnone' : ∀ s' ∈ rest, s'.chainLabels = none :=
        fun s' hs' => hnone s' (by simp [hs'])
      simp only [assignSeqs, assignSeq]
      unfold renderSeqs
      rw [renderSeqStep_ok_of_some _ (generate_chain_labels idx cnt) _ rfl]
      dsimp only
      rw [ih (idx + cnt) _ hnone' hex']
    | dna =>
      have hex' : ∃ s' ∈ rest, s'.kind = .other := by
        rcases hex with ⟨s', hs', hk⟩
        rcases List.mem_cons.mp hs' with h | h
        · rw [h] at hk
          simp at hk
        · exact ⟨s', h, hk⟩
      have hnone' : ∀ s' ∈ rest, s'.chainLabels = none :=
        fun s' hs' => hnone s' (by simp [hs'])
      simp only [assignSeqs, assignSeq]
      unfold renderSeqs
      rw [renderSeqStep_ok_of_some _ (generate_chain_labels idx cnt) _ rfl]
      dsimp only
      rw [ih (idx + cnt) _ hnone' hex']

theorem renderSeqs_assign_ok (seqs : List SequenceRec) :
    ∀ (idx : Nat) (y : Int),
      (∀ s ∈ seqs, s.kind ≠ .other) →
      ∃ p, renderSeqs (assignSeqs idx seqs).1 y = .ok p := by
  induction seqs with
  | nil =>
    intro idx y _
    exact ⟨([], y), rfl⟩
  | cons s rest ih =>
    intro idx y hall
    obtain ⟨k, cnt, sq, cl⟩ := s
    cases k with
    | other =>
      have := hall ⟨SeqKind.other, cnt, sq, cl⟩ (by simp)
      simp at this
    | protein =>
      have hall' : ∀ s' ∈ rest, s'.kind ≠ .other :=
        fun s' hs' => hall s' (by simp [hs'])
      simp only [assignSeqs, assignSeq]
      unfold renderSeqs
      rw [renderSeqStep_ok_of_some _ (generate_chain_labels idx cnt) _ rfl]
      dsimp only
      obtain ⟨q, hq⟩ := ih (idx + cnt)
        (pageCheck (renderSeqBody
          ⟨SeqKind.protein, cnt, sq, some (generate_chain_labels idx cnt)⟩
          (joinComma (generate_chain_labels idx cnt)) y).2).2 hall'
      rw [hq]
      exact ⟨_, rfl⟩
    | dna =>
      have hall' : ∀ s' ∈ rest, s'.kind ≠ .other :=
        fun s' hs' => hall s' (by simp [hs'])
      simp only [assignSeqs, assignSeq]
      unfold renderSeqs
      rw [renderSeqStep_ok_of_some _ (generate_chain_labels idx cnt) _ rfl]
      dsimp only
      obtain ⟨q, hq⟩ := ih (idx + cnt)
        (pageCheck (renderSeqBody
          ⟨SeqKind.dna, cnt, sq, some (generate_chain_labels idx cnt)⟩
          (joinComma (generate_chain_labels idx cnt)) y).2).2 hall'
      rw [hq]
      exact ⟨_, rfl⟩

theorem renderEntries_assign_err (doc : List Entry) :
    ∀ (idx : Nat) (y : Int),
      (∀ e ∈ doc, ∀ s ∈ e.sequences, s.chainLabels = none) →
      (∃ e ∈ doc, ∃ s ∈ e.sequences, s.kind = .other) →
      renderEntries (assignEntries idx doc).1 y = .error .keyError := by
  induction doc with
  | nil =>
    intro idx y _ hex
    simp at hex
  | cons e rest ih =>
    intro idx y hnone hex
    by_cases he : ∃ s ∈ e.sequences, s.kind = .other
    · simp only [assignEntries]
      unfold renderEntries renderEntry
      dsimp only
      rw [renderSeqs_assign_err e.sequences idx _ (hnone e (by simp)) he]
    · have hex' : ∃ e' ∈ rest, ∃ s ∈ e'.sequences, s.kind = .other := by
        rcases hex with ⟨e', he', hs⟩
        rcases List.mem_cons.mp he' with h | h
        · rw [h] at hs
          exact absurd hs he
        · exact ⟨e', h, hs⟩
      have hnone' : ∀ e' ∈ rest, ∀ s ∈ e'.sequences, s.chainLabels = none :=
        fun e' he' => hnone e' (by simp [he'])
      have hok : ∀ s ∈ e.sequences, s.kind ≠ .other := by
        intro s hs hk
        exact he ⟨s, hs, hk⟩
      obtain ⟨p, hp⟩ := renderSeqs_assign_ok e.sequences idx (y - 3 * lineSpacing) hok
      simp only [assignEntries]
      unfold renderEntries renderEntry
      dsimp only
      rw [hp]
      dsimp only
      rw [ih (assignSeqs idx e.sequences).2 (pageCheck (p.2 - lineSpacing)).2 hnone' hex']

/-- The post-load part of C8: on a document that has a sequence with
neither a `proteinChain` nor a `dnaSequence` key (and, as in any input
document, no pre-existing `chainLabels`), the labeling pass leaves that
sequence without `chainLabels` and the rendering pass raises `KeyError`
at `sequence["chainLabels"]`, which escapes
`generate_alphafold_pdf_report`. -/
theorem generate_report_keyError (doc : List Entry)
    (hnone : ∀ e ∈ doc, ∀ s ∈ e.sequences, s.chainLabels = none)
    (hother : ∃ e ∈ doc, ∃ s ∈ e.sequences, s.kind = .other) :
    generate_alphafold_pdf_report doc = .error .keyError := by
  unfold generate_alphafold_pdf_report assignChainLabels
  rw [renderEntries_assign_err doc 0 _ hnone hother]

/-! ## Filenames, glob patterns and filesystem traces

Filesystem effects are modelled as explicit traces of operations:
opening a file for reading, creating a directory, and writing an output
file.  A folder is modelled by the list of file names it contains;
`glob` with the patterns of the scripts is modelled by Boolean
string-matching functions on those names, and `os.path.join(a, b)` by
`a ++ "/" ++ b`. -/

inductive FsOp
  | read (p : String)
  | mkdir (p : String)
  | write (p : String)
deriving DecidableEq

def startsWithChars : List Char → List Char → Bool
  | _, [] => true
  | [], _ :: _ => false
  | a :: as, b :: bs => a == b && startsWithChars as bs

def containsChars : List Char → List Char → Bool
  | [], pat => pat.isEmpty
  | a :: as, pat => startsWithChars (a :: as) pat || containsChars as pat

def endsWithChars (l pat : List Char) : Bool :=
  l.drop (l.length - pat.length) == pat

/-- glob pattern `*_job_request.json` applied to a file name. -/
def matchesJobRequest (name : String) : Bool :=
  endsWithChars name.data "_job_request.json".data

/-- glob pattern `*summary_confidences_*.json` applied to a file name
(used by both plot_summary.py and plot_iptm_ptm_models.py).  Since the
two literal parts of the pattern cannot overlap, a name matches exactly
when it contains the first part and ends with the second. -/
def matchesSummary (name : String) : Bool :=
  containsChars name.data "summary_confidences_".data
    && endsWithChars name.data ".json".data

/-- glob pattern `*full_data_*.json` (plot_pae_plddt_contact.py). -/
def matchesFullData (name : String) : Bool :=
  containsChars name.data "full_data_".data
    && endsWithChars name.data ".json".data

/-- `Path(p).stem` for a file name ending in `.json`: drop the five
characters of the extension. -/
def stemOf (name : String) : String :=
  String.mk (name.data.take (name.data.length - 5))

/-! ## `create_report.py`: discovery and main loop -/

/-- `find_json_files(folder_path)` (lines 9–14): glob the folder for
`*_job_request.json` (matches come back as `folder/name` paths, as
`glob.glob(os.path.join(...))` yields) and raise `FileNotFoundError`
when nothing matches. -/
def find_json_files (folderPath : String) (files : List String) : Except PyErr (List String) :=
  if files.filter matchesJobRequest = [] then
    .error .fileNotFound
  else
    .ok ((files.filter matchesJobRequest).map (fun n => folderPath ++ "/" ++ n))

/-- `args.output if args.output else os.path.join(args.folder_path, "reports")`
(line 150). -/
def create_report_outputDir (folderPath : String) (output : Option String) : String :=
  output.getD (folderPath ++ "/" ++ "reports")

/-- The `for index, json_file_path in enumerate(json_file_paths, start=1)`
loop (lines 153–158): each iteration opens the JSON file for reading
and, when the report renders, writes `af_report_{index}.pdf` into the
output directory; an exception aborts the loop. -/
def createReportLoop (content : String → List Entry) (outputDir : String) :
    List String → Nat → List FsOp × Except PyErr Unit
  | [], _ => ([], .ok ())
  | p :: rest, index =>
    match generate_alphafold_pdf_report (content p) with
    | .error e => ([FsOp.read p], .error e)
    | .ok _ =>
      let q := createReportLoop content outputDir rest (index + 1)
      (FsOp.read p
        :: FsOp.write (outputDir ++ "/" ++ ("af_report_" ++ toString index ++ ".pdf"))
        :: q.1,
       q.2)

inductive MainOutcome
  | completed
  | printedFileNotFound
  | printedUnexpected
deriving DecidableEq

/-- `main()` of create_report.py (lines 136–163): find the input files,
create the output directory, run the report loop.  A
`FileNotFoundError` prints `Error: ...`, any other exception prints
`Unexpected error: ...`; no exception propagates out of `main`. -/
def create_report_main (folderPath : String) (output : Option String)
    (files : List String) (content : String → List Entry) : List FsOp × MainOutcome :=
  match find_json_files folderPath files with
  | .error _ => ([], .printedFileNotFound)
  | .ok paths =>
    let outputDir := create_report_outputDir folderPath output
    let r := createReportLoop content outputDir paths 1
    (FsOp.mkdir outputDir :: r.1,
     match r.2 with
     | .ok _ => .completed
     | .error .fileNotFound => .printedFileNotFound
     | .error _ => .printedUnexpected)

/-- **C4**: `find_json_files` raises `FileNotFoundError` exactly when no
file in the folder matches `*_job_request.json`; otherwise it returns
the full list of matching files; the only exception it can raise is
`FileNotFoundError`; and when it raises, `main` catches the error and
prints it instead of propagating it. -/
theorem find_json_files_spec :
    (∀ (folderPath : String) (files : List String),
      find_json_files folderPath files = .error .fileNotFound
        ↔ files.filter matchesJobRequest = []) ∧
    (∀ (folderPath : String) (files : List String) (e : PyErr),
      find_json_files folderPath files = .error e → e = .fileNotFound) ∧
    (∀ (folderPath : String) (files : List String),
      files.filter matchesJobRequest ≠ [] →
      find_json_files folderPath files
        = .ok ((files.filter matchesJobRequest).map (fun n => folderPath ++ "/" ++ n))) ∧
    (∀ (folderPath : String) (output : Option String) (files : List String)
        (content : String → List Entry),
      files.filter matchesJobRequest = [] →
      create_report_main folderPath output files content = ([], .printedFileNotFound)) := by
  refine ⟨?_, ?_, ?_, ?_⟩
  · intro folderPath files
    unfold find_json_files
    constructor
    · intro h
      by_contra hne
      rw [if_neg hne] at h
      exact absurd h (by simp)
    · intro h
      rw [if_pos h]
  · intro folderPath files e h
    unfold find_json_files at h
    by_cases hnil : files.filter matchesJobRequest = []
    · rw [if_pos hnil] at h
      simp only [Except.error.injEq] at h
      exact h.symm
    · rw [if_neg hnil] at h
      exact absurd h (by simp)
  · intro folderPath files h
    unfold find_json_files
    rw [if_neg h]
  · intro folderPath output files content h
    unfold create_report_main find_json_files
    rw [if_pos h]

/-- Witness for `find_json_files_spec` at concrete inputs. -/
theorem find_json_files_spec_witness :
    find_json_files "f" ["a.txt"] = .error .fileNotFound ∧
    create_report_main "f" none ["a.txt"] (fun _ => []) = ([], .printedFileNotFound) :=
  ⟨(find_json_files_spec.1 "f" ["a.txt"]).mpr (by decide),
   find_json_files_spec.2.2.2 "f" none ["a.txt"] (fun _ => []) (by decide)⟩

/-- The trace of a run of the report loop in which every file succeeds. -/
def loopTrace (outputDir : String) : List String → Nat → List FsOp
  | [], _ => []
  | p :: rest, index =>
    FsOp.read p
      :: FsOp.write (outputDir ++ "/" ++ ("af_report_" ++ toString index ++ ".pdf"))
      :: loopTrace outputDir rest (index + 1)

theorem createReportLoop_abort (content : String → List Entry) (outputDir : String)
    (badPath : String) (rest : List String)
    (hbad : generate_alphafold_pdf_report (content badPath) = .error .keyError) :
    ∀ (pre : List String) (idx : Nat),
      (∀ p ∈ pre, ∃ ops, generate_alphafold_pdf_report (content p) = .ok ops) →
      createReportLoop content outputDir (pre ++ badPath :: rest) idx
        = (loopTrace outputDir pre idx ++ [FsOp.read badPath], .error .keyError) := by
  intro pre
  induction pre with
  | nil =>
    intro idx _
    show createReportLoop content outputDir (badPath :: rest) idx = _
    unfold createReportLoop
    rw [hbad]
    rfl
  | cons p pre' ih =>
    intro idx hpre
    obtain ⟨ops, hops⟩ := hpre p (by simp)
    show createReportLoop content outputDir (p :: (pre' ++ badPath :: rest)) idx = _
    unfold createReportLoop
    rw [hops]
    dsimp only
    rw [ih (idx + 1) (fun p' hp' => hpre p' (by simp [hp']))]
    simp [loopTrace]

/-- **C8**: when a job-request document contains a sequence with neither
a `proteinChain` nor a `dnaSequence` key, the labeling pass gives it no
`chainLabels`, the rendering pass raises `KeyError`, the exception
escapes `generate_alphafold_pdf_report` and is caught only by the
generic `except Exception` handler in `main` (printing
`Unexpected error:`), and no remaining job-request file is processed:
the run's trace stops at the read of the offending file. -/
theorem report_keyError_aborts_main (content : String → List Entry)
    (folderPath : String) (output : Option String) (files : List String)
    (pre : List String) (badPath : String) (rest : List String)
    (hmatch : (files.filter matchesJobRequest).map (fun n => folderPath ++ "/" ++ n)
        = pre ++ badPath :: rest)
    (hpre : ∀ p ∈ pre, ∃ ops, generate_alphafold_pdf_report (content p) = .ok ops)
    (hnone : ∀ e ∈ content badPath, ∀ s ∈ e.sequences, s.chainLabels = none)
    (hother : ∃ e ∈ content badPath, ∃ s ∈ e.sequences, s.kind = .other) :
    generate_alphafold_pdf_report (content badPath) = .error .keyError ∧
    create_report_main folderPath output files content
      = (FsOp.mkdir (create_report_outputDir folderPath output)
          :: (loopTrace (create_report_outputDir folderPath output) pre 1
              ++ [FsOp.read badPath]),
         .printedUnexpected) := by
  have hbad := generate_report_keyError (content badPath) hnone hother
  refine ⟨hbad, ?_⟩
  have hne : files.filter matchesJobRequest ≠ [] := by
    intro hnil
    rw [hnil] at hmatch
    simp at hmatch
  have hfind : find_json_files folderPath files = .ok (pre ++ badPath :: rest) := by
    unfold find_json_files
    rw [if_neg hne, hmatch]
  unfold create_report_main
  rw [hfind]
  dsimp only
  rw [createReportLoop_abort content _ badPath rest hbad pre 1 hpre]

/-- A well-formed document with one protein sequence. -/
def goodDoc : List Entry :=
  [{ name := "G", modelSeeds := ["1"],
     sequences := [{ kind := SeqKind.protein, count := 1, seq := "MA" }] }]

/-- A document whose only sequence has neither a `proteinChain` nor a
`dnaSequence` key (e.g. an RNA sequence). -/
def rnaDoc : List Entry :=
  [{ name := "R", modelSeeds := ["1"],
     sequences := [{ kind := SeqKind.other, count := 1, seq := "ACGU" }] }]

def c8content : String → List Entry :=
  fun p => if p = "f/b_job_request.json" then rnaDoc else goodDoc

/-- Witness for `report_keyError_aborts_main` at a concrete run. -/
theorem report_keyError_aborts_main_witness :
    create_report_main "f" none ["a_job_request.json", "b_job_request.json"] c8content
      = (FsOp.mkdir (create_report_outputDir "f" none)
          :: (loopTrace (create_report_outputDir "f" none) ["f/a_job_request.json"] 1
              ++ [FsOp.read "f/b_job_request.json"]),
         .printedUnexpected) :=
  (report_keyError_aborts_main c8content "f" none
    ["a_job_request.json", "b_job_request.json"]
    ["f/a_job_request.json"] "f/b_job_request.json" []
    (by decide)
    (by
      intro p hp
      simp at hp
      subst hp
      exact ⟨_, rfl⟩)
    (by decide)
    (by decide)).2

/-! ## `plot_summary.py` and `plot_pae_plddt_contact.py`

`load_data_from_json` of plot_summary.py returns five values from its
`try` body but `return None, None` — a 2-tuple — from its `except`
handler (line 44), while the call site (line 142) unpacks five values.
`load_data_from_json` of plot_pae_plddt_contact.py returns five values
on success but six `None`s from its handler (line 32), while its call
site (line 215) unpacks five.  Python tuple unpacking of the wrong
arity raises `ValueError`, which neither `process_folder` nor `main`
catches, so a file whose load failed aborts the whole run instead of
being skipped (the `is not None` skip branch is unreachable). -/

/-- Outcome of `plot_summary.load_data_from_json`'s `try` body: either
the five loaded values (abstracted as opaque tokens) or a caught
`FileNotFoundError` / `JSONDecodeError` / `KeyError`. -/
inductive SummaryLoad
  | ok (t : Nat × Nat × Nat × Nat × Nat)
  | err

/-- The Python tuple returned by `plot_summary.load_data_from_json`:
five values on success, `(None, None)` on a caught error (line 44). -/
def load_data_from_json_summary : SummaryLoad → List (Option Nat)
  | .ok (a, b, c, d, e) => [some a, some b, some c, some d, some e]
  | .err => [none, none]

/-- Outcome of `plot_pae_plddt_contact.load_data_from_json`'s `try`
body. -/
inductive PaeLoad
  | ok (t : Nat × Nat × Nat × Nat × Nat)
  | err

/-- The Python tuple returned by `plot_pae_plddt_contact.load_data_from_json`:
five values on success, six `None`s on a caught error (line 32). -/
def load_data_from_json_pae : PaeLoad → List (Option Nat)
  | .ok (a, b, c, d, e) => [some a, some b, some c, some d, some e]
  | .err => [none, none, none, none, none, none]

/-- Python tuple unpacking `a, b, c, d, e = t`: raises `ValueError`
unless the tuple has exactly five items. -/
def unpack5 (t : List (Option Nat)) :
    Except PyErr (Option Nat × Option Nat × Option Nat × Option Nat × Option Nat) :=
  match t with
  | [a, b, c, d, e] => .ok (a, b, c, d, e)
  | _ => .error .valueError

/-- The `for json_file in json_files` loop of
`plot_summary.process_folder` (lines 139–164): read the file, unpack
the five returned values (raising `ValueError` when the load failed and
returned a 2-tuple), and if the first is not `None` write the
`{stem}_summary.png` plot, else skip. -/
def summaryFolderLoop (content : String → SummaryLoad) (folderPath outputDir : String) :
    List String → List FsOp × Except PyErr Unit
  | [] => ([], .ok ())
  | n :: rest =>
    match unpack5 (load_data_from_json_summary (content (folderPath ++ "/" ++ n))) with
    | .error e => ([FsOp.read (folderPath ++ "/" ++ n)], .error e)
    | .ok (a, _, _, _, _) =>
      let q := summaryFolderLoop content folderPath outputDir rest
      match a with
      | some _ =>
        (FsOp.read (folderPath ++ "/" ++ n)
          :: FsOp.write (outputDir ++ "/" ++ (stemOf n ++ "_summary.png")) :: q.1,
         q.2)
      | none => (FsOp.read (folderPath ++ "/" ++ n) :: q.1, q.2)

/-- `plot_summary.process_folder` (lines 123–164): glob, early return
when nothing matches, create the output directory, then the file
loop. -/
def plot_summary_process_folder (content : String → SummaryLoad)
    (folderPath outputDir : String) (files : List String) :
    List FsOp × Except PyErr Unit :=
  if files.filter matchesSummary = [] then ([], .ok ())
  else
    let r := summaryFolderLoop content folderPath outputDir (files.filter matchesSummary)
    (FsOp.mkdir outputDir :: r.1, r.2)

def plot_summary_outputDir (folderPath : String) (output : Option String) : String :=
  output.getD (folderPath ++ "/" ++ "summary_plots")

/-- `plot_summary.main` (lines 167–178): no `try`/`except`, so whatever
`process_folder` raises propagates out of the script. -/
def plot_summary_main (folderPath : String) (output : Option String)
    (files : List String) (content : String → SummaryLoad) :
    List FsOp × Except PyErr Unit :=
  plot_summary_process_folder content folderPath
    (plot_summary_outputDir folderPath output) files

/-- Same shape for `plot_pae_plddt_contact.process_folder`
(lines 198–218): one `{stem}_combined.png` per successfully loaded
file. -/
def paeFolderLoop (content : String → PaeLoad) (folderPath outputDir : String) :
    List String → List FsOp × Except PyErr Unit
  | [] => ([], .ok ())
  | n :: rest =>
    match unpack5 (load_data_from_json_pae (content (folderPath ++ "/" ++ n))) with
    | .error e => ([FsOp.read (folderPath ++ "/" ++ n)], .error e)
    | .ok (a, _, _, _, _) =>
      let q := paeFolderLoop content folderPath outputDir rest
      match a with
      | some _ =>
        (FsOp.read (folderPath ++ "/" ++ n)
          :: FsOp.write (outputDir ++ "/" ++ (stemOf n ++ "_combined.png")) :: q.1,
         q.2)
      | none => (FsOp.read (folderPath ++ "/" ++ n) :: q.1, q.2)

def plot_pae_process_folder (content : String → PaeLoad)
    (folderPath outputDir : String) (files : List String) :
    List FsOp × Except PyErr Unit :=
  if files.filter matchesFullData = [] then ([], .ok ())
  else
    let r := paeFolderLoop content folderPath outputDir (files.filter matchesFullData)
    (FsOp.mkdir outputDir :: r.1, r.2)

def plot_pae_outputDir (folderPath : String) (output : Option String) : String :=
  output.getD (folderPath ++ "/" ++ "pae_plddt_contacts_plots")

def plot_pae_main (folderPath : String) (output : Option String)
    (files : List String) (content : String → PaeLoad) :
    List FsOp × Except PyErr Unit :=
  plot_pae_process_folder content folderPath
    (plot_pae_outputDir folderPath output) files

/-- Loads for the C2 failing run: the first matched file is malformed,
the second is valid. -/
def c2SummaryContent : String → SummaryLoad :=
  fun p => if p = "f/asummary_confidences_0.json" then .err else .ok (1, 2, 3, 4, 5)

def c2PaeContent : String → PaeLoad :=
  fun p => if p = "f/afull_data_0.json" then .err else .ok (1, 2, 3, 4, 5)

/-- **C2 (code bug), plot_summary.py**: on a folder whose first matched
file has malformed JSON and whose second is valid, the run aborts with
`ValueError` right after reading the malformed file — the 2-tuple
`(None, None)` returned by the `except` handler cannot be unpacked into
five variables — so the valid file is never read and no plot is
written, contradicting the intended (and claimed) per-file skip. -/
theorem summary_valueError_aborts :
    plot_summary_main "f" none
      ["asummary_confidences_0.json", "bsummary_confidences_0.json"] c2SummaryContent
      = ([FsOp.mkdir "f/summary_plots", FsOp.read "f/asummary_confidences_0.json"],
         .error .valueError) := by
  rfl

/-- **C2 (code bug), plot_pae_plddt_contact.py**: same failure via the
6-`None` error return unpacked into five variables. -/
theorem pae_valueError_aborts :
    plot_pae_main "f" none
      ["afull_data_0.json", "bfull_data_0.json"] c2PaeContent
      = ([FsOp.mkdir "f/pae_plddt_contacts_plots", FsOp.read "f/afull_data_0.json"],
         .error .valueError) := by
  rfl

/-! ## `plot_iptm_ptm_models.py`

Here `load_data_from_json` returns two values on success and
`(None, None)` on a caught error, so the two-variable unpacking at the
call site (line 112) always works and failed files really are
skipped.  `process_folder` (lines 85–137) aggregates the chain values
across files and writes two boxplots at the end. -/

/-- Outcome of `plot_iptm_ptm_models.load_data_from_json`: the
`chain_iptm` and `chain_ptm` arrays, or a caught
`FileNotFoundError` / `JSONDecodeError` / `KeyError` (which returns
`(None, None)`, matching the two-variable unpacking). -/
inductive IptmLoad (α : Type)
  | ok (iptm ptm : List α)
  | err

/-- The body of `for i in range(len(chain_iptm_data))` (lines 126–128):
`aggregated_chain_iptm_data[i].append(chain_iptm_data[i])`, then
`aggregated_chain_ptm_data[i].append(chain_ptm_data[i])`; an index past
the end of any list raises `IndexError`. -/
def appendBoth {α : Type} :
    List (List α) → List (List α) → List α → List α →
      Except PyErr (List (List α) × List (List α))
  | aggI, aggP, [], _ => .ok (aggI, aggP)
  | li :: aggI, lp :: aggP, v :: vs, w :: ws =>
    match appendBoth aggI aggP vs ws with
    | .error e => .error e
    | .ok (a, b) => .ok ((li ++ [v]) :: a, (lp ++ [w]) :: b)
  | _, _, _ :: _, _ => .error .indexError

/-- The mutable locals of the aggregation loop:
`aggregated_chain_iptm_data`, `aggregated_chain_ptm_data`,
`all_labels`. -/
structure IptmState (α : Type) where
  aggI : List (List α)
  aggP : List (List α)
  labels : List Char
deriving DecidableEq

/-- One successful-load iteration of the loop (lines 114–128): compute
the labels `[chr(i) for i in range(65, 65 + len(chain_iptm_data))]`,
initialise the aggregation lists on the first loaded file
(`if not aggregated_chain_iptm_data:` — empty-list falsiness), then
append this file's value for every chain. -/
def iptmFileStep {α : Type} (st : IptmState α) (iptm ptm : List α) :
    Except PyErr (IptmState α) :=
  match appendBoth
      (if st.aggI.isEmpty then List.replicate iptm.length ([] : List α) else st.aggI)
      (if st.aggI.isEmpty then List.replicate ptm.length ([] : List α) else st.aggP)
      iptm ptm with
  | .error e => .error e
  | .ok (a, b) =>
    .ok ⟨a, b, (List.range iptm.length).map (fun i => Char.ofNat (65 + i))⟩

/-- The `for json_file in json_files` loop (lines 108–130) with its
filesystem trace; a failed load prints and skips the file. -/
def iptmLoop {α : Type} (content : String → IptmLoad α) (folderPath : String) :
    List String → IptmState α → List FsOp × Except PyErr (IptmState α)
  | [], st => ([], .ok st)
  | n :: rest, st =>
    match content (folderPath ++ "/" ++ n) with
    | .err =>
      let q := iptmLoop content folderPath rest st
      (FsOp.read (folderPath ++ "/" ++ n) :: q.1, q.2)
    | .ok iptm ptm =>
      match iptmFileStep st iptm ptm with
      | .error e => ([FsOp.read (folderPath ++ "/" ++ n)], .error e)
      | .ok st' =>
        let q := iptmLoop content folderPath rest st'
        (FsOp.read (folderPath ++ "/" ++ n) :: q.1, q.2)

/-- `plot_iptm_ptm_models.process_folder`: glob, early return on no
match, create the output directory, aggregate, and when both aggregated
lists are non-empty write the two boxplots. -/
def plot_iptm_process_folder {α : Type} (content : String → IptmLoad α)
    (folderPath outputDir : String) (files : List String) :
    List FsOp × Except PyErr Unit :=
  if files.filter matchesSummary = [] then ([], .ok ())
  else
    let r := iptmLoop content folderPath (files.filter matchesSummary) ⟨[], [], []⟩
    match r.2 with
    | .error e => (FsOp.mkdir outputDir :: r.1, .error e)
    | .ok st =>
      (FsOp.mkdir outputDir :: r.1
        ++ (if st.aggI.isEmpty || st.aggP.isEmpty then []
            else [FsOp.write (outputDir ++ "/" ++ "chain_iptm_data.png"),
                  FsOp.write (outputDir ++ "/" ++ "chain_ptm_data.png")]),
       .ok ())

def plot_iptm_outputDir (folderPath : String) (output : Option String) : String :=
  output.getD (folderPath ++ "/" ++ "iptm_ptm_plots")

def plot_iptm_main {α : Type} (folderPath : String) (output : Option String)
    (files : List String) (content : String → IptmLoad α) :
    List FsOp × Except PyErr Unit :=
  plot_iptm_process_folder content folderPath
    (plot_iptm_outputDir folderPath output) files

/-- The chain arrays of the successfully loaded files, in processing
order. -/
def iptmOks {α : Type} (content : String → IptmLoad α) (folderPath : String)
    (names : List String) : List (List α × List α) :=
  names.filterMap (fun n =>
    match content (folderPath ++ "/" ++ n) with
    | .ok i p => some (i, p)
    | .err => none)

/-- Column view of the aggregation: the `i`-th aggregated list collects
the `i`-th chain value of every successfully loaded file. -/
def colAgg {α : Type} [Inhabited α] (oks : List (List α × List α)) (n : Nat) :
    List (List α) × List (List α) :=
  ((List.range n).map (fun i => oks.map (fun q => q.1.getD i default)),
   (List.range n).map (fun i => oks.map (fun q => q.2.getD i default)))

/-- The aggregation state after processing files with successful loads
`oks` (empty until the first success, columns of `oks` afterwards). -/
def aggFor {α : Type} [Inhabited α] (oks : List (List α × List α)) (n : Nat) :
    List (List α) × List (List α) :=
  match oks with
  | [] => ([], [])
  | _ :: _ => colAgg oks n

def zipApp {α : Type} (agg : List (List α)) (vals : List α) : List (List α) :=
  List.zipWith (fun l x => l ++ [x]) agg vals

theorem appendBoth_ok {α : Type} :
    ∀ (iptm : List α) (aggI aggP : List (List α)) (ptm : List α),
      aggI.length = iptm.length → aggP.length = iptm.length →
      ptm.length = iptm.length →
      appendBoth aggI aggP iptm ptm = .ok (zipApp aggI iptm, zipApp aggP ptm) := by
  intro iptm
  induction iptm with
  | nil =>
    intro aggI aggP ptm hI hP hp
    have : aggI = [] := List.eq_nil_of_length_eq_zero hI
    have : aggP = [] := List.eq_nil_of_length_eq_zero hP
    subst_vars
    rfl
  | cons v vs ih =>
    intro aggI aggP ptm hI hP hp
    cases aggI with
    | nil => simp at hI
    | cons li aggI' =>
      cases aggP with
      | nil => simp at hP
      | cons lp aggP' =>
        cases ptm with
        | nil => simp at hp
        | cons w ws =>
          simp only [List.length_cons] at hI hP hp
          show appendBoth (li :: aggI') (lp :: aggP') (v :: vs) (w :: ws) = _
          unfold appendBoth
          rw [ih aggI' aggP' ws (by omega) (by omega) (by omega)]
          rfl

theorem zipApp_colAgg {α : Type} [Inhabited α] (n : Nat)
    (P : List (List α × List α)) (iptm ptm : List α)
    (hi : iptm.length = n) (hp : ptm.length = n) :
    zipApp (colAgg P n).1 iptm = (colAgg (P ++ [(iptm, ptm)]) n).1 ∧
    zipApp (colAgg P n).2 ptm = (colAgg (P ++ [(iptm, ptm)]) n).2 := by
  constructor
  · apply List.ext_getElem?
    intro j
    simp only [colAgg, zipApp, List.getElem?_zipWith, List.getElem?_map]
    by_cases hj : j < n
    · rw [List.getElem?_range hj]
      have hji : j < iptm.length := by omega
      rw [List.getElem?_eq_getElem hji]
      have hd : iptm.getD j default = iptm[j] := by
        rw [List.getD_eq_getElem?_getD, List.getElem?_eq_getElem hji]
        rfl
      simp [hd, List.map_append]
      rw [List.getElem?_eq_getElem hji]
      rfl
    · have hrange : (List.range n)[j]? = none :=
        List.getElem?_eq_none (by simp only [List.length_range]; omega)
      rw [hrange]
      simp
  · apply List.ext_getElem?
    intro j
    simp only [colAgg, zipApp, List.getElem?_zipWith, List.getElem?_map]
    by_cases hj : j < n
    · rw [List.getElem?_range hj]
      have hjp : j < ptm.length := by omega
      rw [List.getElem?_eq_getElem hjp]
      have hd : ptm.getD j default = ptm[j] := by
        rw [List.getD_eq_getElem?_getD, List.getElem?_eq_getElem hjp]
        rfl
      simp [hd, List.map_append]
      rw [List.getElem?_eq_getElem hjp]
      rfl
    · have hrange : (List.range n)[j]? = none :=
        List.getElem?_eq_none (by simp only [List.length_range]; omega)
      rw [hrange]
      simp

theorem aggFor_ne_nil {α : Type} [Inhabited α] (oks : List (List α × List α)) (n : Nat)
    (h : oks ≠ []) : aggFor oks n = colAgg oks n := by
  cases oks with
  | nil => exact absurd rfl h
  | cons q oks' => rfl

theorem colAgg_length {α : Type} [Inhabited α] (oks : List (List α × List α)) (n : Nat) :
    (colAgg oks n).1.length = n ∧ (colAgg oks n).2.length = n := by
  simp [colAgg]

theorem iptmFileStep_agg {α : Type} [Inhabited α] (n : Nat)
    (P : List (List α × List α)) (iptm ptm : List α) (labels : List Char)
    (hi : iptm.length = n) (hp : ptm.length = n) :
    iptmFileStep ⟨(aggFor P n).1, (aggFor P n).2, labels⟩ iptm ptm
      = .ok ⟨(aggFor (P ++ [(iptm, ptm)]) n).1, (aggFor (P ++ [(iptm, ptm)]) n).2,
             (List.range n).map (fun i => Char.ofNat (65 + i))⟩ := by
  have hIf :
      (if ((⟨(aggFor P n).1, (aggFor P n).2, labels⟩ : IptmState α).aggI).isEmpty then
          List.replicate iptm.length ([] : List α)
        else (aggFor P n).1) = (colAgg P n).1 ∧
      (if ((⟨(aggFor P n).1, (aggFor P n).2, labels⟩ : IptmState α).aggI).isEmpty then
          List.replicate ptm.length ([] : List α)
        else (aggFor P n).2) = (colAgg P n).2 := by
    cases P with
    | nil =>
      constructor
      · show (if (List.isEmpty []) then List.replicate iptm.length ([] : List α) else [])
            = (colAgg ([] : List (List α × List α)) n).1
        simp [colAgg, hi, List.map_const', List.length_range]
      · show (if (List.isEmpty []) then List.replicate ptm.length ([] : List α) else [])
            = (colAgg ([] : List (List α × List α)) n).2
        simp [colAgg, hp, List.map_const', List.length_range]
    | cons q P' =>
      by_cases hn : n = 0
      · subst hn
        have h0 : (aggFor (q :: P') 0).1 = [] := by
          simp [aggFor, colAgg]
        constructor
        · rw [show ((⟨(aggFor (q :: P') 0).1, (aggFor (q :: P') 0).2, labels⟩ :
                IptmState α).aggI) = (aggFor (q :: P') 0).1 from rfl, h0]
          have : iptm.length = 0 := hi
          simp [this, colAgg]
        · rw [show ((⟨(aggFor (q :: P') 0).1, (aggFor (q :: P') 0).2, labels⟩ :
                IptmState α).aggI) = (aggFor (q :: P') 0).1 from rfl, h0]
          have : ptm.length = 0 := hp
          simp [this, colAgg]
      · have hne : ((aggFor (q :: P') n).1).isEmpty = false := by
          simp only [aggFor, colAgg]
          rw [List.isEmpty_eq_false_iff_exists_mem]
          refine ⟨(q :: P').map (fun q' => q'.1.getD 0 default), ?_⟩
          rw [List.mem_map]
          exact ⟨0, by rw [List.mem_range]; omega, rfl⟩
        constructor
        · rw [show ((⟨(aggFor (q :: P') n).1, (aggFor (q :: P') n).2, labels⟩ :
                IptmState α).aggI) = (aggFor (q :: P') n).1 from rfl, hne]
          simp [aggFor]
        · rw [show ((⟨(aggFor (q :: P') n).1, (aggFor (q :: P') n).2, labels⟩ :
                IptmState α).aggI) = (aggFor (q :: P') n).1 from rfl, hne]
          simp [aggFor]
  unfold iptmFileStep
  rw [hIf.1, hIf.2,
    appendBoth_ok iptm (colAgg P n).1 (colAgg P n).2 ptm
      (by rw [(colAgg_length P n).1, hi])
      (by rw [(colAgg_length P n).2, hi])
      (by omega),
    (zipApp_colAgg n P iptm ptm hi hp).1, (zipApp_colAgg n P iptm ptm hi hp).2,
    aggFor_ne_nil (P ++ [(iptm, ptm)]) n (by simp), hi]

theorem iptmLoop_agg {α : Type} [Inhabited α] (content : String → IptmLoad α)
    (folderPath : String) (n : Nat) :
    ∀ (names : List String) (P : List (List α × List α)) (labels : List Char),
      (∀ q ∈ iptmOks content folderPath names, q.1.length = n ∧ q.2.length = n) →
      ∃ tr labels',
        iptmLoop content folderPath names ⟨(aggFor P n).1, (aggFor P n).2, labels⟩
          = (tr, .ok ⟨(aggFor (P ++ iptmOks content folderPath names) n).1,
                      (aggFor (P ++ iptmOks content folderPath names) n).2, labels'⟩) := by
  intro names
  induction names with
  | nil =>
    intro P labels _
    refine ⟨[], labels, ?_⟩
    simp [iptmLoop, iptmOks]
  | cons nm rest ih =>
    intro P labels hlen
    cases hc : content (folderPath ++ "/" ++ nm) with
    | err =>
      have hOks : iptmOks content folderPath (nm :: rest)
          = iptmOks content folderPath rest := by
        simp [iptmOks, List.filterMap_cons, hc]
      rw [hOks] at hlen ⊢
      obtain ⟨tr, labels', hrec⟩ := ih P labels hlen
      refine ⟨FsOp.read (folderPath ++ "/" ++ nm) :: tr, labels', ?_⟩
      show iptmLoop content folderPath (nm :: rest) _ = _
      unfold iptmLoop
      rw [hc]
      dsimp only
      rw [hrec]
    | ok iptm ptm =>
      have hOks : iptmOks content folderPath (nm :: rest)
          = (iptm, ptm) :: iptmOks content folderPath rest := by
        simp [iptmOks, List.filterMap_cons, hc]
      rw [hOks] at hlen ⊢
      have hq := hlen (iptm, ptm) (by simp)
      have hlen' : ∀ q ∈ iptmOks content folderPath rest,
          q.1.length = n ∧ q.2.length = n :=
        fun q hq' => hlen q (by simp [hq'])
      obtain ⟨tr, labels', hrec⟩ := ih (P ++ [(iptm, ptm)])
        ((List.range n).map (fun i => Char.ofNat (65 + i))) hlen'
      refine ⟨FsOp.read (folderPath ++ "/" ++ nm) :: tr, labels', ?_⟩
      show iptmLoop content folderPath (nm :: rest) _ = _
      unfold iptmLoop
      rw [hc]
      dsimp only
      rw [iptmFileStep_agg n P iptm ptm labels hq.1 hq.2]
      dsimp only
      rw [hrec]
      rw [show (P ++ [(iptm, ptm)]) ++ iptmOks content folderPath rest
          = P ++ ((iptm, ptm) :: iptmOks content folderPath rest) by simp]

theorem colAgg_getD {α : Type} [Inhabited α] (oks : List (List α × List α))
    (n i : Nat) (hi : i < n) :
    (colAgg oks n).1.getD i [] = oks.map (fun q => q.1.getD i default) ∧
    (colAgg oks n).2.getD i [] = oks.map (fun q => q.2.getD i default) := by
  constructor <;>
  · simp only [colAgg, List.getD_eq_getElem?_getD, List.getElem?_map]
    rw [List.getElem?_range hi]
    rfl

/-- **C5**: under the precondition that every successfully loaded file
has `chain_iptm` and `chain_ptm` arrays of one common length `n` (the
length of the first loaded file's arrays), the aggregation loop of
`plot_iptm_ptm_models.process_folder` completes without error and, for
every chain index `i < n`, `aggregated_chain_iptm_data[i]`
(respectively `aggregated_chain_ptm_data[i]`) is exactly the list of
the `i`-th chain's value from each successfully loaded file, in
processing order. -/
theorem iptm_process_aggregates {α : Type} [Inhabited α]
    (content : String → IptmLoad α) (folderPath : String) (names : List String)
    (n : Nat)
    (hlen : ∀ q ∈ iptmOks content folderPath names,
      q.1.length = n ∧ q.2.length = n) :
    ∃ tr labels,
      iptmLoop content folderPath names ⟨[], [], []⟩
        = (tr, .ok ⟨(aggFor (iptmOks content folderPath names) n).1,
                    (aggFor (iptmOks content folderPath names) n).2, labels⟩) ∧
      (∀ i : Nat, i < n → iptmOks content folderPath names ≠ [] →
        (aggFor (iptmOks content folderPath names) n).1.getD i []
            = (iptmOks content folderPath names).map (fun q => q.1.getD i default) ∧
        (aggFor (iptmOks content folderPath names) n).2.getD i []
            = (iptmOks content folderPath names).map (fun q => q.2.getD i default)) := by
  obtain ⟨tr, labels', hrec⟩ := iptmLoop_agg content folderPath n names [] [] hlen
  refine ⟨tr, labels', ?_, ?_⟩
  · exact hrec
  · intro i hi hne
    rw [aggFor_ne_nil _ n hne]
    exact colAgg_getD _ n i hi

/-- Loads for the C5 witness run: two valid files around a malformed
one. -/
def c5content : String → IptmLoad Int :=
  fun p =>
    if p = "f/asummary_confidences_0.json" then .ok [3, 4] [5, 6]
    else if p = "f/bsummary_confidences_0.json" then .err
    else .ok [7, 8] [9, 10]

/-- Witness for `iptm_process_aggregates` at a concrete run. -/
theorem iptm_process_aggregates_witness :
    ∃ tr labels,
      iptmLoop c5content "f"
        ["asummary_confidences_0.json", "bsummary_confidences_0.json",
         "csummary_confidences_0.json"] ⟨[], [], []⟩
        = (tr, .ok ⟨(aggFor (iptmOks c5content "f"
              ["asummary_confidences_0.json", "bsummary_confidences_0.json",
               "csummary_confidences_0.json"]) 2).1,
            (aggFor (iptmOks c5content "f"
              ["asummary_confidences_0.json", "bsummary_confidences_0.json",
               "csummary_confidences_0.json"]) 2).2, labels⟩) ∧
      (∀ i : Nat, i < 2 →
        iptmOks c5content "f"
          ["asummary_confidences_0.json", "bsummary_confidences_0.json",
           "csummary_confidences_0.json"] ≠ [] →
        (aggFor (iptmOks c5content "f"
            ["asummary_confidences_0.json", "bsummary_confidences_0.json",
             "csummary_confidences_0.json"]) 2).1.getD i []
          = (iptmOks c5content "f"
              ["asummary_confidences_0.json", "bsummary_confidences_0.json",
               "csummary_confidences_0.json"]).map (fun q => q.1.getD i default) ∧
        (aggFor (iptmOks c5content "f"
            ["asummary_confidences_0.json", "bsummary_confidences_0.json",
             "csummary_confidences_0.json"]) 2).2.getD i []
          = (iptmOks c5content "f"
              ["asummary_confidences_0.json", "bsummary_confidences_0.json",
               "csummary_confidences_0.json"]).map (fun q => q.2.getD i default)) :=
  iptm_process_aggregates c5content "f"
    ["asummary_confidences_0.json", "bsummary_confidences_0.json",
     "csummary_confidences_0.json"] 2 (by decide)

/-! ## Where each script reads and writes (C9, C10)

Helper lemmas describing the shape of every operation in each script's
trace: reads target only the globbed input files, writes target only
`output_dir/…` files whose names end in `.png`/`.pdf`, and a trace that
writes at all starts with the creation of the output directory. -/

theorem getLast?_append_right {α : Type} (l1 l2 : List α) (h : l2 ≠ []) :
    (l1 ++ l2).getLast? = l2.getLast? := by
  rw [List.getLast?_append]
  cases hl : l2.getLast? with
  | none =>
    rw [List.getLast?_eq_none_iff] at hl
    exact absurd hl h
  | some c => rfl

theorem strConcat_getLast (a b : String) (h : b.data ≠ []) :
    (a ++ b).data.getLast? = b.data.getLast? := by
  rw [String.data_append]
  exact getLast?_append_right _ _ h

theorem createReportLoop_write_shape (content : String → List Entry) (outputDir : String) :
    ∀ (paths : List String) (idx : Nat) (p : String),
      FsOp.write p ∈ (createReportLoop content outputDir paths idx).1 →
      (∃ nm, p = outputDir ++ "/" ++ nm) ∧ p.data.getLast? = some 'f' := by
  intro paths
  induction paths with
  | nil => intro idx p hp; simp [createReportLoop] at hp
  | cons q rest ih =>
    intro idx p hp
    unfold createReportLoop at hp
    cases hg : generate_alphafold_pdf_report (content q) with
    | error e =>
      rw [hg] at hp
      simp at hp
    | ok ops =>
      rw [hg] at hp
      simp only [List.mem_cons] at hp
      rcases hp with hp | hp | hp
      · exact absurd hp (by simp)
      · have hp' : p = outputDir ++ "/" ++ ("af_report_" ++ toString idx ++ ".pdf") := by
          simpa using hp
        subst hp'
        refine ⟨⟨_, rfl⟩, ?_⟩
        rw [strConcat_getLast _ _ (by rw [String.data_append]; simp),
          strConcat_getLast _ _ (by simp)]
        rfl
      · exact ih (idx + 1) p hp

theorem createReportLoop_read_shape (content : String → List Entry) (outputDir : String) :
    ∀ (paths : List String) (idx : Nat) (p : String),
      FsOp.read p ∈ (createReportLoop content outputDir paths idx).1 → p ∈ paths := by
  intro paths
  induction paths with
  | nil => intro idx p hp; simp [createReportLoop] at hp
  | cons q rest ih =>
    intro idx p hp
    unfold createReportLoop at hp
    cases hg : generate_alphafold_pdf_report (content q) with
    | error e =>
      rw [hg] at hp
      simp at hp
      simp [hp]
    | ok ops =>
      rw [hg] at hp
      simp only [List.mem_cons] at hp
      rcases hp with hp | hp | hp
      · simp at hp
        simp [hp]
      · exact absurd hp (by simp)
      · exact List.mem_cons_of_mem _ (ih (idx + 1) p hp)

theorem summaryFolderLoop_write_shape (content : String → SummaryLoad)
    (folderPath outputDir : String) :
    ∀ (names : List String) (p : String),
      FsOp.write p ∈ (summaryFolderLoop content folderPath outputDir names).1 →
      (∃ nm, p = outputDir ++ "/" ++ nm) ∧ p.data.getLast? = some 'g' := by
  intro names
  induction names with
  | nil => intro p hp; simp [summaryFolderLoop] at hp
  | cons nm rest ih =>
    intro p hp
    unfold summaryFolderLoop at hp
    cases hu : unpack5 (load_data_from_json_summary
        (content (folderPath ++ "/" ++ nm))) with
    | error e =>
      rw [hu] at hp
      simp at hp
    | ok t =>
      obtain ⟨a, b, c, d, e⟩ := t
      rw [hu] at hp
      dsimp only at hp
      cases a with
      | some v =>
        simp only [List.mem_cons] at hp
        rcases hp with hp | hp | hp
        · exact absurd hp (by simp)
        · have hp' : p = outputDir ++ "/" ++ (stemOf nm ++ "_summary.png") := by
            simpa using hp
          subst hp'
          refine ⟨⟨_, rfl⟩, ?_⟩
          rw [strConcat_getLast _ _ (by rw [String.data_append]; simp),
            strConcat_getLast _ _ (by simp)]
          rfl
        · exact ih p hp
      | none =>
        simp only [List.mem_cons] at hp
        rcases hp with hp | hp
        · exact absurd hp (by simp)
        · exact ih p hp

theorem summaryFolderLoop_read_shape (content : String → SummaryLoad)
    (folderPath outputDir : String) :
    ∀ (names : List String) (p : String),
      FsOp.read p ∈ (summaryFolderLoop content folderPath outputDir names).1 →
      ∃ nm ∈ names, p = folderPath ++ "/" ++ nm := by
  intro names
  induction names with
  | nil => intro p hp; simp [summaryFolderLoop] at hp
  | cons nm rest ih =>
    intro p hp
    unfold summaryFolderLoop at hp
    cases hu : unpack5 (load_data_from_json_summary
        (content (folderPath ++ "/" ++ nm))) with
    | error e =>
      rw [hu] at hp
      simp at hp
      exact ⟨nm, by simp, hp⟩
    | ok t =>
      obtain ⟨a, b, c, d, e⟩ := t
      rw [hu] at hp
      dsimp only at hp
      cases a with
      | some v =>
        simp only [List.mem_cons] at hp
        rcases hp with hp | hp | hp
        · simp at hp
          exact ⟨nm, by simp, hp⟩
        · exact absurd hp (by simp)
        · obtain ⟨nm', hnm', hp'⟩ := ih p hp
          exact ⟨nm', by simp [hnm'], hp'⟩
      | none =>
        simp only [List.mem_cons] at hp
        rcases hp with hp | hp
        · simp at hp
          exact ⟨nm, by simp, hp⟩
        · obtain ⟨nm', hnm', hp'⟩ := ih p hp
          exact ⟨nm', by simp [hnm'], hp'⟩

theorem paeFolderLoop_write_shape (content : String → PaeLoad)
    (folderPath outputDir : String) :
    ∀ (names : List String) (p : String),
      FsOp.write p ∈ (paeFolderLoop content folderPath outputDir names).1 →
      (∃ nm, p = outputDir ++ "/" ++ nm) ∧ p.data.getLast? = some 'g' := by
  intro names
  induction names with
  | nil => intro p hp; simp [paeFolderLoop] at hp
  | cons nm rest ih =>
    intro p hp
    unfold paeFolderLoop at hp
    cases hu : unpack5 (load_data_from_json_pae
        (content (folderPath ++ "/" ++ nm))) with
    | error e =>
      rw [hu] at hp
      simp at hp
    | ok t =>
      obtain ⟨a, b, c, d, e⟩ := t
      rw [hu] at hp
      dsimp only at hp
      cases a with
      | some v =>
        simp only [List.mem_cons] at hp
        rcases hp with hp | hp | hp
        · exact absurd hp (by simp)
        · have hp' : p = outputDir ++ "/" ++ (stemOf nm ++ "_combined.png") := by
            simpa using hp
          subst hp'
          refine ⟨⟨_, rfl⟩, ?_⟩
          rw [strConcat_getLast _ _ (by rw [String.data_append]; simp),
            strConcat_getLast _ _ (by simp)]
          rfl
        · exact ih p hp
      | none =>
        simp only [List.mem_cons] at hp
        rcases hp with hp | hp
        · exact absurd hp (by simp)
        · exact ih p hp

theorem paeFolderLoop_read_shape (content : String → PaeLoad)
    (folderPath outputDir : String) :
    ∀ (names : List String) (p : String),
      FsOp.read p ∈ (paeFolderLoop content folderPath outputDir names).1 →
      ∃ nm ∈ names, p = folderPath ++ "/" ++ nm := by
  intro names
  induction names with
  | nil => intro p hp; simp [paeFolderLoop] at hp
  | cons nm rest ih =>
    intro p hp
    unfold paeFolderLoop at hp
    cases hu : unpack5 (load_data_from_json_pae
        (content (folderPath ++ "/" ++ nm))) with
    | error e =>
      rw [hu] at hp
      simp at hp
      exact ⟨nm, by simp, hp⟩
    | ok t =>
      obtain ⟨a, b, c, d, e⟩ := t
      rw [hu] at hp
      dsimp only at hp
      cases a with
      | some v =>
        simp only [List.mem_cons] at hp
        rcases hp with hp | hp | hp
        · simp at hp
          exact ⟨nm, by simp, hp⟩
        · exact absurd hp (by simp)
        · obtain ⟨nm', hnm', hp'⟩ := ih p hp
          exact ⟨nm', by simp [hnm'], hp'⟩
      | none =>
        simp only [List.mem_cons] at hp
        rcases hp with hp | hp
        · simp at hp
          exact ⟨nm, by simp, hp⟩
        · obtain ⟨nm', hnm', hp'⟩ := ih p hp
          exact ⟨nm', by simp [hnm'], hp'⟩

theorem iptmLoop_no_write {α : Type} (content : String → IptmLoad α)
    (folderPath : String) :
    ∀ (names : List String) (st : IptmState α) (p : String),
      FsOp.write p ∉ (iptmLoop content folderPath names st).1 := by
  intro names
  induction names with
  | nil => intro st p hp; simp [iptmLoop] at hp
  | cons nm rest ih =>
    intro st p hp
    unfold iptmLoop at hp
    cases hc : content (folderPath ++ "/" ++ nm) with
    | err =>
      rw [hc] at hp
      simp only [List.mem_cons] at hp
      rcases hp with hp | hp
      · exact absurd hp (by simp)
      · exact ih st p hp
    | ok iptm ptm =>
      rw [hc] at hp
      dsimp only at hp
      cases hs : iptmFileStep st iptm ptm with
      | error e =>
        rw [hs] at hp
        simp at hp
      | ok st' =>
        rw [hs] at hp
        simp only [List.mem_cons] at hp
        rcases hp with hp | hp
        · exact absurd hp (by simp)
        · exact ih st' p hp

theorem iptmLoop_read_shape {α : Type} (content : String → IptmLoad α)
    (folderPath : String) :
    ∀ (names : List String) (st : IptmState α) (p : String),
      FsOp.read p ∈ (iptmLoop content folderPath names st).1 →
      ∃ nm ∈ names, p = folderPath ++ "/" ++ nm := by
  intro names
  induction names with
  | nil => intro st p hp; simp [iptmLoop] at hp
  | cons nm rest ih =>
    intro st p hp
    unfold iptmLoop at hp
    cases hc : content (folderPath ++ "/" ++ nm) with
    | err =>
      rw [hc] at hp
      simp only [List.mem_cons] at hp
      rcases hp with hp | hp
      · simp at hp
        exact ⟨nm, by simp, hp⟩
      · obtain ⟨nm', hnm', hp'⟩ := ih st p hp
        exact ⟨nm', by simp [hnm'], hp'⟩
    | ok iptm ptm =>
      rw [hc] at hp
      dsimp only at hp
      cases hs : iptmFileStep st iptm ptm with
      | error e =>
        rw [hs] at hp
        simp at hp
        exact ⟨nm, by simp, hp⟩
      | ok st' =>
        rw [hs] at hp
        simp only [List.mem_cons] at hp
        rcases hp with hp | hp
        · simp at hp
          exact ⟨nm, by simp, hp⟩
        · obtain ⟨nm', hnm', hp'⟩ := ih st' p hp
          exact ⟨nm', by simp [hnm'], hp'⟩

/-- **C9**: every script writes its outputs to the `--output` directory
when that option is supplied, and otherwise to its fixed-name subfolder
of the input folder (`reports`, `iptm_ptm_plots`, `summary_plots`,
`pae_plddt_contacts_plots`); and in either case every write in the
run's trace targets a file inside that directory, and any trace that
contains a write begins by creating the directory. -/
theorem output_directory_policy :
    (∀ fp : String, create_report_outputDir fp none = fp ++ "/" ++ "reports") ∧
    (∀ fp o : String, create_report_outputDir fp (some o) = o) ∧
    (∀ fp : String, plot_iptm_outputDir fp none = fp ++ "/" ++ "iptm_ptm_plots") ∧
    (∀ fp o : String, plot_iptm_outputDir fp (some o) = o) ∧
    (∀ fp : String, plot_summary_outputDir fp none = fp ++ "/" ++ "summary_plots") ∧
    (∀ fp o : String, plot_summary_outputDir fp (some o) = o) ∧
    (∀ fp : String, plot_pae_outputDir fp none = fp ++ "/" ++ "pae_plddt_contacts_plots") ∧
    (∀ fp o : String, plot_pae_outputDir fp (some o) = o) ∧
    (∀ (fp : String) (out : Option String) (files : List String)
        (content : String → List Entry),
      (∀ p, FsOp.write p ∈ (create_report_main fp out files content).1 →
        ∃ nm, p = create_report_outputDir fp out ++ "/" ++ nm) ∧
      ((create_report_main fp out files content).1 = [] ∨
        ∃ tl, (create_report_main fp out files content).1
          = FsOp.mkdir (create_report_outputDir fp out) :: tl)) ∧
    (∀ (α : Type) (fp : String) (out : Option String) (files : List String)
        (content : String → IptmLoad α),
      (∀ p, FsOp.write p ∈ (plot_iptm_main fp out files content).1 →
        ∃ nm, p = plot_iptm_outputDir fp out ++ "/" ++ nm) ∧
      ((plot_iptm_main fp out files content).1 = [] ∨
        ∃ tl, (plot_iptm_main fp out files content).1
          = FsOp.mkdir (plot_iptm_outputDir fp out) :: tl)) ∧
    (∀ (fp : String) (out : Option String) (files : List String)
        (content : String → SummaryLoad),
      (∀ p, FsOp.write p ∈ (plot_summary_main fp out files content).1 →
        ∃ nm, p = plot_summary_outputDir fp out ++ "/" ++ nm) ∧
      ((plot_summary_main fp out files content).1 = [] ∨
        ∃ tl, (plot_summary_main fp out files content).1
          = FsOp.mkdir (plot_summary_outputDir fp out) :: tl)) ∧
    (∀ (fp : String) (out : Option String) (files : List String)
        (content : String → PaeLoad),
      (∀ p, FsOp.write p ∈ (plot_pae_main fp out files content).1 →
        ∃ nm, p = plot_pae_outputDir fp out ++ "/" ++ nm) ∧
      ((plot_pae_main fp out files content).1 = [] ∨
        ∃ tl, (plot_pae_main fp out files content).1
          = FsOp.mkdir (plot_pae_outputDir fp out) :: tl)) := by
  refine ⟨fun fp => rfl, fun fp o => rfl, fun fp => rfl, fun fp o => rfl,
    fun fp => rfl, fun fp o => rfl, fun fp => rfl, fun fp o => rfl,
    ?_, ?_, ?_, ?_⟩
  · -- create_report.py
    intro fp out files content
    unfold create_report_main
    cases hf : find_json_files fp files with
    | error e =>
      exact ⟨fun p hp => absurd hp (by simp), Or.inl rfl⟩
    | ok paths =>
      dsimp only
      constructor
      · intro p hp
        simp only [List.mem_cons] at hp
        rcases hp with hp | hp
        · exact absurd hp (by simp)
        · exact (createReportLoop_write_shape content _ paths 1 p hp).1
      · exact Or.inr ⟨_, rfl⟩
  · -- plot_iptm_ptm_models.py
    intro α fp out files content
    unfold plot_iptm_main plot_iptm_process_folder
    by_cases hm : files.filter matchesSummary = []
    · rw [if_pos hm]
      exact ⟨fun p hp => absurd hp (by simp), Or.inl rfl⟩
    · rw [if_neg hm]
      dsimp only
      cases hr : (iptmLoop content fp (files.filter matchesSummary)
          ⟨[], [], []⟩).2 with
      | error e =>
        dsimp only
        constructor
        · intro p hp
          simp only [List.mem_cons] at hp
          rcases hp with hp | hp
          · exact absurd hp (by simp)
          · exact absurd hp (iptmLoop_no_write content fp _ _ p)
        · exact Or.inr ⟨_, rfl⟩
      | ok st =>
        dsimp only
        constructor
        · intro p hp
          by_cases hw : (st.aggI.isEmpty || st.aggP.isEmpty) = true
          · rw [if_pos hw] at hp
            rcases List.mem_cons.mp hp with hp | hp
            · exact absurd hp (by simp)
            rcases List.mem_append.mp hp with hp | hp
            · exact absurd hp (iptmLoop_no_write content fp _ _ p)
            · exact absurd hp (by simp)
          · rw [if_neg hw] at hp
            rcases List.mem_cons.mp hp with hp | hp
            · exact absurd hp (by simp)
            rcases List.mem_append.mp hp with hp | hp
            · exact absurd hp (iptmLoop_no_write content fp _ _ p)
            rcases List.mem_cons.mp hp with hp | hp
            · exact ⟨"chain_iptm_data.png", by simpa using hp⟩
            rcases List.mem_cons.mp hp with hp | hp
            · exact ⟨"chain_ptm_data.png", by simpa using hp⟩
            · exact absurd hp (by simp)
        · exact Or.inr ⟨_, rfl⟩
  · -- plot_summary.py
    intro fp out files content
    unfold plot_summary_main plot_summary_process_folder
    by_cases hm : files.filter matchesSummary = []
    · rw [if_pos hm]
      exact ⟨fun p hp => absurd hp (by simp), Or.inl rfl⟩
    · rw [if_neg hm]
      dsimp only
      constructor
      · intro p hp
        simp only [List.mem_cons] at hp
        rcases hp with hp | hp
        · exact absurd hp (by simp)
        · exact (summaryFolderLoop_write_shape content fp _ _ p hp).1
      · exact Or.inr ⟨_, rfl⟩
  · -- plot_pae_plddt_contact.py
    intro fp out files content
    unfold plot_pae_main plot_pae_process_folder
    by_cases hm : files.filter matchesFullData = []
    · rw [if_pos hm]
      exact ⟨fun p hp => absurd hp (by simp), Or.inl rfl⟩
    · rw [if_neg hm]
      dsimp only
      constructor
      · intro p hp
        simp only [List.mem_cons] at hp
        rcases hp with hp | hp
        · exact absurd hp (by simp)
        · exact (paeFolderLoop_write_shape content fp _ _ p hp).1
      · exact Or.inr ⟨_, rfl⟩

/-- Witness for `output_directory_policy` at a concrete run: the single
matched file leads to a write inside `f/reports`, and the trace starts
with the creation of `f/reports`. -/
theorem output_directory_policy_witness :
    (∃ nm, ("f/reports" ++ "/" ++ ("af_report_" ++ toString 1 ++ ".pdf") : String)
        = create_report_outputDir "f" none ++ "/" ++ nm) ∧
    ((create_report_main "f" none ["a_job_request.json"] (fun _ => goodDoc)).1 = [] ∨
      ∃ tl, (create_report_main "f" none ["a_job_request.json"] (fun _ => goodDoc)).1
        = FsOp.mkdir (create_report_outputDir "f" none) :: tl) :=
  ⟨(output_directory_policy.2.2.2.2.2.2.2.2.1 "f" none ["a_job_request.json"]
      (fun _ => goodDoc)).1 _ (by
        rw [show (create_report_main "f" none ["a_job_request.json"]
          (fun _ => goodDoc)).1 = [FsOp.mkdir "f/reports",
            FsOp.read "f/a_job_request.json",
            FsOp.write ("f/reports" ++ "/" ++ ("af_report_" ++ toString 1 ++ ".pdf"))]
          from rfl]
        simp),
   (output_directory_policy.2.2.2.2.2.2.2.2.1 "f" none ["a_job_request.json"]
      (fun _ => goodDoc)).2⟩

/-! ## Input files are only read (C10)

A filesystem is a map from paths to contents; applying a trace mutates
it only at written paths.  Every write of every script targets a
`.png`/`.pdf` file, every matched input file ends in `.json`, so no
input file's content changes over a run. -/

def applyFs : List FsOp → (String → Option String) → String → Option String
  | [], fs => fs
  | FsOp.read _ :: rest, fs => applyFs rest fs
  | FsOp.mkdir _ :: rest, fs => applyFs rest fs
  | FsOp.write p :: rest, fs =>
    applyFs rest (fun q => if q = p then some "<written>" else fs q)

theorem applyFs_frame :
    ∀ (tr : List FsOp) (fs : String → Option String) (q : String),
      (∀ p, FsOp.write p ∈ tr → p ≠ q) → applyFs tr fs q = fs q := by
  intro tr
  induction tr with
  | nil => intro fs q _; rfl
  | cons op rest ih =>
    intro fs q hw
    cases op with
    | read p => exact ih fs q (fun p' hp' => hw p' (by simp [hp']))
    | mkdir p => exact ih fs q (fun p' hp' => hw p' (by simp [hp']))
    | write p =>
      show applyFs rest _ q = fs q
      rw [ih _ q (fun p' hp' => hw p' (by simp [hp']))]
      have hne : p ≠ q := hw p (by simp)
      rw [if_neg (fun hh => hne hh.symm)]

theorem endsWithChars_getLast (l pat : List Char) (hne : pat ≠ [])
    (h : endsWithChars l pat = true) : l.getLast? = pat.getLast? := by
  unfold endsWithChars at h
  have hdrop : l.drop (l.length - pat.length) = pat := by
    simpa using h
  have hsplit : l = l.take (l.length - pat.length) ++ pat := by
    conv_lhs => rw [← List.take_append_drop (l.length - pat.length) l]
    rw [hdrop]
  rw [hsplit, getLast?_append_right _ _ hne]

theorem matchesJobRequest_lastChar (nm : String) (h : matchesJobRequest nm = true) :
    nm.data.getLast? = some 'n' ∧ nm.data ≠ [] := by
  unfold matchesJobRequest at h
  have he := endsWithChars_getLast nm.data "_job_request.json".data (by simp) h
  refine ⟨by rw [he]; rfl, ?_⟩
  intro hnil
  rw [hnil] at he
  simp at he

theorem matchesSummary_lastChar (nm : String) (h : matchesSummary nm = true) :
    nm.data.getLast? = some 'n' ∧ nm.data ≠ [] := by
  unfold matchesSummary at h
  have he := endsWithChars_getLast nm.data ".json".data (by simp)
    (Bool.and_eq_true_iff.mp h).2
  refine ⟨by rw [he]; rfl, ?_⟩
  intro hnil
  rw [hnil] at he
  simp at he

theorem matchesFullData_lastChar (nm : String) (h : matchesFullData nm = true) :
    nm.data.getLast? = some 'n' ∧ nm.data ≠ [] := by
  unfold matchesFullData at h
  have he := endsWithChars_getLast nm.data ".json".data (by simp)
    (Bool.and_eq_true_iff.mp h).2
  refine ⟨by rw [he]; rfl, ?_⟩
  intro hnil
  rw [hnil] at he
  simp at he

/-- A path whose last character is `'g'` or `'f'` (a `.png`/`.pdf`
output) is never a path whose last character is `'n'` (a `.json`
input). -/
theorem write_ne_input (w q : String)
    (hw : w.data.getLast? = some 'g' ∨ w.data.getLast? = some 'f')
    (hq : q.data.getLast? = some 'n') : w ≠ q := by
  intro hwq
  subst hwq
  rcases hw with hw | hw <;> rw [hw] at hq <;> simp at hq

theorem inputPath_lastChar (fp nm : String) (h : nm.data.getLast? = some 'n')
    (hne : nm.data ≠ []) : (fp ++ "/" ++ nm).data.getLast? = some 'n' := by
  rw [strConcat_getLast _ _ hne, h]

theorem create_report_writes_lastChar (fp : String) (out : Option String)
    (files : List String) (content : String → List Entry) (p : String)
    (hp : FsOp.write p ∈ (create_report_main fp out files content).1) :
    p.data.getLast? = some 'g' ∨ p.data.getLast? = some 'f' := by
  unfold create_report_main at hp
  cases hf : find_json_files fp files with
  | error e =>
    rw [hf] at hp
    simp at hp
  | ok paths =>
    rw [hf] at hp
    dsimp only at hp
    rcases List.mem_cons.mp hp with hp | hp
    · exact absurd hp (by simp)
    · exact Or.inr (createReportLoop_write_shape content _ paths 1 p hp).2

theorem create_report_reads (fp : String) (out : Option String)
    (files : List String) (content : String → List Entry) (p : String)
    (hp : FsOp.read p ∈ (create_report_main fp out files content).1) :
    p ∈ (files.filter matchesJobRequest).map (fun n => fp ++ "/" ++ n) := by
  unfold create_report_main at hp
  cases hf : find_json_files fp files with
  | error e =>
    rw [hf] at hp
    simp at hp
  | ok paths =>
    rw [hf] at hp
    dsimp only at hp
    rcases List.mem_cons.mp hp with hp | hp
    · exact absurd hp (by simp)
    · have hpaths : paths = (files.filter matchesJobRequest).map
          (fun n => fp ++ "/" ++ n) := by
        unfold find_json_files at hf
        by_cases hm : files.filter matchesJobRequest = []
        · rw [if_pos hm] at hf
          exact absurd hf (by simp)
        · rw [if_neg hm] at hf
          simpa using hf.symm
      rw [← hpaths]
      exact createReportLoop_read_shape content _ paths 1 p hp

theorem summary_writes_lastChar (fp : String) (out : Option String)
    (files : List String) (content : String → SummaryLoad) (p : String)
    (hp : FsOp.write p ∈ (plot_summary_main fp out files content).1) :
    p.data.getLast? = some 'g' ∨ p.data.getLast? = some 'f' := by
  unfold plot_summary_main plot_summary_process_folder at hp
  by_cases hm : files.filter matchesSummary = []
  · rw [if_pos hm] at hp
    simp at hp
  · rw [if_neg hm] at hp
    dsimp only at hp
    rcases List.mem_cons.mp hp with hp | hp
    · exact absurd hp (by simp)
    · exact Or.inl (summaryFolderLoop_write_shape content fp _ _ p hp).2

theorem summary_reads (fp : String) (out : Option String)
    (files : List String) (content : String → SummaryLoad) (p : String)
    (hp : FsOp.read p ∈ (plot_summary_main fp out files content).1) :
    p ∈ (files.filter matchesSummary).map (fun n => fp ++ "/" ++ n) := by
  unfold plot_summary_main plot_summary_process_folder at hp
  by_cases hm : files.filter matchesSummary = []
  · rw [if_pos hm] at hp
    simp at hp
  · rw [if_neg hm] at hp
    dsimp only at hp
    rcases List.mem_cons.mp hp with hp | hp
    · exact absurd hp (by simp)
    · obtain ⟨nm, hnm, hpeq⟩ := summaryFolderLoop_read_shape content fp _ _ p hp
      rw [List.mem_map]
      exact ⟨nm, hnm, hpeq.symm⟩

theorem pae_writes_lastChar (fp : String) (out : Option String)
    (files : List String) (content : String → PaeLoad) (p : String)
    (hp : FsOp.write p ∈ (plot_pae_main fp out files content).1) :
    p.data.getLast? = some 'g' ∨ p.data.getLast? = some 'f' := by
  unfold plot_pae_main plot_pae_process_folder at hp
  by_cases hm : files.filter matchesFullData = []
  · rw [if_pos hm] at hp
    simp at hp
  · rw [if_neg hm] at hp
    dsimp only at hp
    rcases List.mem_cons.mp hp with hp | hp
    · exact absurd hp (by simp)
    · exact Or.inl (paeFolderLoop_write_shape content fp _ _ p hp).2

theorem pae_reads (fp : String) (out : Option String)
    (files : List String) (content : String → PaeLoad) (p : String)
    (hp : FsOp.read p ∈ (plot_pae_main fp out files content).1) :
    p ∈ (files.filter matchesFullData).map (fun n => fp ++ "/" ++ n) := by
  unfold plot_pae_main plot_pae_process_folder at hp
  by_cases hm : files.filter matchesFullData = []
  · rw [if_pos hm] at hp
    simp at hp
  · rw [if_neg hm] at hp
    dsimp only at hp
    rcases List.mem_cons.mp hp with hp | hp
    · exact absurd hp (by simp)
    · obtain ⟨nm, hnm, hpeq⟩ := paeFolderLoop_read_shape content fp _ _ p hp
      rw [List.mem_map]
      exact ⟨nm, hnm, hpeq.symm⟩

theorem iptm_writes_lastChar {α : Type} (fp : String) (out : Option String)
    (files : List String) (content : String → IptmLoad α) (p : String)
    (hp : FsOp.write p ∈ (plot_iptm_main fp out files content).1) :
    p.data.getLast? = some 'g' ∨ p.data.getLast? = some 'f' := by
  unfold plot_iptm_main plot_iptm_process_folder at hp
  by_cases hm : files.filter matchesSummary = []
  · rw [if_pos hm] at hp
    simp at hp
  · rw [if_neg hm] at hp
    dsimp only at hp
    cases hr : (iptmLoop content fp (files.filter matchesSummary) ⟨[], [], []⟩).2 with
    | error e =>
      rw [hr] at hp
      dsimp only at hp
      rcases List.mem_cons.mp hp with hp | hp
      · exact absurd hp (by simp)
      · exact absurd hp (iptmLoop_no_write content fp _ _ p)
    | ok st =>
      rw [hr] at hp
      dsimp only at hp
      rcases List.mem_cons.mp hp with hp | hp
      · exact absurd hp (by simp)
      rcases List.mem_append.mp hp with hp | hp
      · exact absurd hp (iptmLoop_no_write content fp _ _ p)
      by_cases hw : (st.aggI.isEmpty || st.aggP.isEmpty) = true
      · rw [if_pos hw] at hp
        exact absurd hp (by simp)
      · rw [if_neg hw] at hp
        rcases List.mem_cons.mp hp with hp | hp
        · simp only [FsOp.write.injEq] at hp
          subst hp
          exact Or.inl (by
            rw [strConcat_getLast _ _ (by simp)]
            rfl)
        rcases List.mem_cons.mp hp with hp | hp
        · simp only [FsOp.write.injEq] at hp
          subst hp
          exact Or.inl (by
            rw [strConcat_getLast _ _ (by simp)]
            rfl)
        · exact absurd hp (by simp)

theorem iptm_reads {α : Type} (fp : String) (out : Option String)
    (files : List String) (content : String → IptmLoad α) (p : String)
    (hp : FsOp.read p ∈ (plot_iptm_main fp out files content).1) :
    p ∈ (files.filter matchesSummary).map (fun n => fp ++ "/" ++ n) := by
  unfold plot_iptm_main plot_iptm_process_folder at hp
  by_cases hm : files.filter matchesSummary = []
  · rw [if_pos hm] at hp
    simp at hp
  · rw [if_neg hm] at hp
    dsimp only at hp
    cases hr : (iptmLoop content fp (files.filter matchesSummary) ⟨[], [], []⟩).2 with
    | error e =>
      rw [hr] at hp
      dsimp only at hp
      rcases List.mem_cons.mp hp with hp | hp
      · exact absurd hp (by simp)
      · obtain ⟨nm, hnm, hpeq⟩ := iptmLoop_read_shape content fp _ _ p hp
        rw [List.mem_map]
        exact ⟨nm, hnm, hpeq.symm⟩
    | ok st =>
      rw [hr] at hp
      dsimp only at hp
      rcases List.mem_cons.mp hp with hp | hp
      · exact absurd hp (by simp)
      rcases List.mem_append.mp hp with hp | hp
      · obtain ⟨nm, hnm, hpeq⟩ := iptmLoop_read_shape content fp _ _ p hp
        rw [List.mem_map]
        exact ⟨nm, hnm, hpeq.symm⟩
      · by_cases hw : (st.aggI.isEmpty || st.aggP.isEmpty) = true
        · rw [if_pos hw] at hp
          exact absurd hp (by simp)
        · rw [if_neg hw] at hp
          rcases List.mem_cons.mp hp with hp | hp
          · exact absurd hp (by simp)
          rcases List.mem_cons.mp hp with hp | hp
          · exact absurd hp (by simp)
          · exact absurd hp (by simp)

/-- **C10**: over a whole run of any of the four scripts, every read in
the trace targets a matched input JSON file, every write targets a
`.png`/`.pdf` file (`output_directory_policy` places them inside the
output directory), and the content of every matched input file is the
same after applying the run's trace to any filesystem — input files are
only ever opened for reading and are unchanged by the run. -/
theorem inputs_read_only :
    (∀ (fp : String) (out : Option String) (files : List String)
        (content : String → List Entry) (p : String),
      FsOp.read p ∈ (create_report_main fp out files content).1 →
      p ∈ (files.filter matchesJobRequest).map (fun n => fp ++ "/" ++ n)) ∧
    (∀ (α : Type) (fp : String) (out : Option String) (files : List String)
        (content : String → IptmLoad α) (p : String),
      FsOp.read p ∈ (plot_iptm_main fp out files content).1 →
      p ∈ (files.filter matchesSummary).map (fun n => fp ++ "/" ++ n)) ∧
    (∀ (fp : String) (out : Option String) (files : List String)
        (content : String → SummaryLoad) (p : String),
      FsOp.read p ∈ (plot_summary_main fp out files content).1 →
      p ∈ (files.filter matchesSummary).map (fun n => fp ++ "/" ++ n)) ∧
    (∀ (fp : String) (out : Option String) (files : List String)
        (content : String → PaeLoad) (p : String),
      FsOp.read p ∈ (plot_pae_main fp out files content).1 →
      p ∈ (files.filter matchesFullData).map (fun n => fp ++ "/" ++ n)) ∧
    (∀ (fp : String) (out : Option String) (files : List String)
        (content : String → List Entry) (p : String),
      FsOp.write p ∈ (create_report_main fp out files content).1 →
      p.data.getLast? = some 'g' ∨ p.data.getLast? = some 'f') ∧
    (∀ (α : Type) (fp : String) (out : Option String) (files : List String)
        (content : String → IptmLoad α) (p : String),
      FsOp.write p ∈ (plot_iptm_main fp out files content).1 →
      p.data.getLast? = some 'g' ∨ p.data.getLast? = some 'f') ∧
    (∀ (fp : String) (out : Option String) (files : List String)
        (content : String → SummaryLoad) (p : String),
      FsOp.write p ∈ (plot_summary_main fp out files content).1 →
      p.data.getLast? = some 'g' ∨ p.data.getLast? = some 'f') ∧
    (∀ (fp : String) (out : Option String) (files : List String)
        (content : String → PaeLoad) (p : String),
      FsOp.write p ∈ (plot_pae_main fp out files content).1 →
      p.data.getLast? = some 'g' ∨ p.data.getLast? = some 'f') ∧
    (∀ (fp : String) (out : Option String) (files : List String)
        (content : String → List Entry) (fs : String → Option String) (nm : String),
      matchesJobRequest nm = true →
      applyFs (create_report_main fp out files content).1 fs (fp ++ "/" ++ nm)
        = fs (fp ++ "/" ++ nm)) ∧
    (∀ (α : Type) (fp : String) (out : Option String) (files : List String)
        (content : String → IptmLoad α) (fs : String → Option String) (nm : String),
      matchesSummary nm = true →
      applyFs (plot_iptm_main fp out files content).1 fs (fp ++ "/" ++ nm)
        = fs (fp ++ "/" ++ nm)) ∧
    (∀ (fp : String) (out : Option String) (files : List String)
        (content : String → SummaryLoad) (fs : String → Option String) (nm : String),
      matchesSummary nm = true →
      applyFs (plot_summary_main fp out files content).1 fs (fp ++ "/" ++ nm)
        = fs (fp ++ "/" ++ nm)) ∧
    (∀ (fp : String) (out : Option String) (files : List String)
        (content : String → PaeLoad) (fs : String → Option String) (nm : String),
      matchesFullData nm = true →
      applyFs (plot_pae_main fp out files content).1 fs (fp ++ "/" ++ nm)
        = fs (fp ++ "/" ++ nm)) := by
  refine ⟨create_report_reads, fun α => iptm_reads, summary_reads, pae_reads,
    create_report_writes_lastChar, fun α => iptm_writes_lastChar,
    summary_writes_lastChar, pae_writes_lastChar, ?_, ?_, ?_, ?_⟩
  · intro fp out files content fs nm hmatch
    apply applyFs_frame
    intro p hp
    have hq := matchesJobRequest_lastChar nm hmatch
    exact write_ne_input p _ (create_report_writes_lastChar fp out files content p hp)
      (inputPath_lastChar fp nm hq.1 hq.2)
  · intro α fp out files content fs nm hmatch
    apply applyFs_frame
    intro p hp
    have hq := matchesSummary_lastChar nm hmatch
    exact write_ne_input p _ (iptm_writes_lastChar fp out files content p hp)
      (inputPath_lastChar fp nm hq.1 hq.2)
  · intro fp out files content fs nm hmatch
    apply applyFs_frame
    intro p hp
    have hq := matchesSummary_lastChar nm hmatch
    exact write_ne_input p _ (summary_writes_lastChar fp out files content p hp)
      (inputPath_lastChar fp nm hq.1 hq.2)
  · intro fp out files content fs nm hmatch
    apply applyFs_frame
    intro p hp
    have hq := matchesFullData_lastChar nm hmatch
    exact write_ne_input p _ (pae_writes_lastChar fp out files content p hp)
      (inputPath_lastChar fp nm hq.1 hq.2)

/-- Witness for `inputs_read_only` at a concrete run: the matched input
file of a create_report run keeps its content. -/
theorem inputs_read_only_witness :
    applyFs (create_report_main "f" none ["a_job_request.json"]
        (fun _ => goodDoc)).1 (fun _ => some "J") ("f" ++ "/" ++ "a_job_request.json")
      = (fun _ : String => some "J") ("f" ++ "/" ++ "a_job_request.json") :=
  inputs_read_only.2.2.2.2.2.2.2.2.1 "f" none ["a_job_request.json"]
    (fun _ => goodDoc) (fun _ => some "J") "a_job_request.json" (by decide)

end AF3
